import Mathlib

/-!
# go-scrape-ebay: crawl orchestration

A shallow embedding of the crawl orchestration of `go-scrape-ebay`
(`category_urls.go`, `scraper.go`, `product_details.go`) together with the
properties of its page classifier, category expander, retry loops, result
channel and checkpoint-file cursor.

Conventions of the embedding.

* The fetch engine (colly), the DOM, `net/url` and `bufio` are external.  A DOM
  element is represented by what the code asks of it: `ForEach selector`,
  `ChildText selector`, `Text`, `Attr name`.  A call of `c.Visit` is recorded
  in the order it is made and its return value comes from a parameter.
* Go `int` values are `Int`.  The fan-out counter is bounded by the number of
  anchors of one page and the cursor by the size of one file, so no 64-bit
  wrap-around is reachable.
* Logging is recorded only where a claim depends on it.
* The product pass is given twice: `runProductsScrape` runs every goroutine to
  its end before the driver moves on, `runProductsScrapeScheduled` steps the
  driver and the goroutines in the order of a schedule.
-/

namespace GoScrapeEbay

/-! ## Errors -/

/-- Go `error` values that the orchestration can see: the package variable
`ErrContextTimeout`, any other error (identified by its message), and an
error wrapping another one. -/
inductive GoError where
  | ErrContextTimeout : GoError
  | other (msg : String) : GoError
  | wrapped (msg : String) (inner : GoError) : GoError
  deriving DecidableEq, Repr

/-- The call `errors.Is(err, ErrContextTimeout)`: walks the unwrap chain. -/
def isContextTimeout : GoError → Bool
  | .ErrContextTimeout => true
  | .other _ => false
  | .wrapped _ inner => isContextTimeout inner

/-! ## Configuration (`scraper.go`, `Config`) -/

structure Config where
  OutputFile : String
  TargetURL : String
  CategoriesFile : String
  MaxRetriesCategories : Int
  MaxRetriesProducts : Int
  MaxCategoriesPerPage : Int
  MaxProductsPerPage : Int
  SkipCategoryScraping : Bool

/-! ## DOM as seen by the category handlers -/

/-- An anchor element handed to the innermost `ForEach` callback. -/
structure Anchor where
  /-- Value of `d.Text`. -/
  Text : String
  /-- Value of `d.Attr(name)`. -/
  Attr : String → String

/-- A section element handed to an outer `ForEach` callback. -/
structure Section where
  /-- Value of `m.ChildText(selector)`. -/
  ChildText : String → String
  /-- Elements visited by `m.ForEach(selector, _)`, in document order. -/
  ForEach : String → List Anchor

/-- The `body` element handed to the `OnHTML("body", _)` callback. -/
structure Body where
  /-- Value of `h.Request.URL.String()`. -/
  url : String
  /-- Elements visited by `h.ForEach(selector, _)`, in document order. -/
  ForEach : String → List Section

/-- Go `strings.Contains(s, substr)`. -/
def stringsContains (s substr : String) : Bool :=
  s.data.tails.any (fun t => substr.data.isPrefixOf t)

/-! ## Page classifier (`category_urls.go`, lines 147-185) -/

def isRootPage (root u : String) : Bool :=
  if root = u then true else false

/-- The closure `checkTitle` of `isLeafCategoryPage`; the captured variable
`isLeaf` is threaded through. -/
def checkTitle (cfg : Config) (url : String) (isLeaf : Bool) (g : Section) : Bool :=
  let title := g.ChildText "h2.section-title__title"
  if title = "" then isLeaf
  else if title ≠ "Shop by Category" ∧ isRootPage cfg.TargetURL url = true then true
  else isLeaf

def selectors : List String :=
  [ "section.b-module.b-carousel.b-guidance.b-display--landscape:first-of-type",
    "section.b-module.b-carousel.b-guidance--text.b-display--landscape:first-of-type",
    "section.seo-guidance.seo-guidance__guidance_module:first-of-type",
    "section.b-module.b-visualnav:first-of-type",
    "section.brw-product-carousel:first-of-type" ]

def isLeafCategoryPage (cfg : Config) (h : Body) : Bool :=
  selectors.foldl
    (fun isLeaf selector => (h.ForEach selector).foldl (checkTitle cfg h.url) isLeaf)
    false

/-! ## Category expander and leaf sink (`category_urls.go`, lines 78-145) -/

/-- What one run of a handler did to its collaborators. -/
structure Effects where
  /-- Arguments of `writer.WriteString`, in call order. -/
  written : List String
  /-- Arguments of `c.Visit`, in call order. -/
  visited : List String
  /-- Errors passed to `s.logger.Error`, in call order. -/
  logged : List GoError

def Effects.empty : Effects := ⟨[], [], []⟩

/-- One call `c.Visit(url)` with its error logging. -/
def doVisit (visit : String → Option GoError) (url : String) (e : Effects) : Effects :=
  match visit url with
  | some err => { e with visited := e.visited ++ [url], logged := e.logged ++ [err] }
  | none => { e with visited := e.visited ++ [url] }

/-- Body of the inner callback of layout 1; the state is the captured `count`
and the effects so far. -/
def layout1Anchor (cfg : Config) (visit : String → Option GoError)
    (st : Int × Effects) (d : Anchor) : Int × Effects :=
  if !stringsContains d.Text "See all" then
    if st.1 > cfg.MaxCategoriesPerPage then st
    else (st.1 + 1, doVisit visit (d.Attr "href") st.2)
  else st

/-- Body of the outer callback of layout 1. -/
def layout1Section (cfg : Config) (visit : String → Option GoError)
    (st : Int × Effects) (m : Section) : Int × Effects :=
  let title := m.ChildText "h2.section-title__title"
  if title = "" then st
  else if title = "Shop by Category" then
    (m.ForEach "a.b-textlink").foldl (layout1Anchor cfg visit) st
  else st

/-- Body of the inner callback of layout 2. -/
def layout2Anchor (cfg : Config) (visit : String → Option GoError)
    (st : Int × Effects) (d : Anchor) : Int × Effects :=
  if st.1 > cfg.MaxCategoriesPerPage then st
  else (st.1 + 1, doVisit visit (d.Attr "href") st.2)

/-- Body of the outer callback of layout 2. -/
def layout2Section (cfg : Config) (visit : String → Option GoError)
    (st : Int × Effects) (m : Section) : Int × Effects :=
  let title := m.ChildText "span.textual-display.brw-category-nav__title"
  if title = "" then st
  else if title = "Shop by Category" then
    (m.ForEach "a.textual-display.brw-category-nav__link").foldl (layout2Anchor cfg visit) st
  else st

/-- Effects of the first `h.ForEach` of the branch case (`count` starts at 0). -/
def expandLayout1 (cfg : Config) (visit : String → Option GoError) (h : Body)
    (e : Effects) : Effects :=
  ((h.ForEach "div.dialog__cell > section:first-of-type").foldl
    (layout1Section cfg visit) (0, e)).2

/-- Effects of the second `h.ForEach` of the branch case (after `count = 0`). -/
def expandLayout2 (cfg : Config) (visit : String → Option GoError) (h : Body)
    (e : Effects) : Effects :=
  ((h.ForEach "section.brw-category-nav.brw-has-parentnode:first-of-type").foldl
    (layout2Section cfg visit) (0, e)).2

/-- The handler `collectLeafCategoryURLs`.  `write` gives the error returned by
`writer.WriteString`, `visit` the error returned by `c.Visit`. -/
def collectLeafCategoryURLs (cfg : Config) (write : String → Option GoError)
    (visit : String → Option GoError) (h : Body) : Effects :=
  let url := h.url
  if isLeafCategoryPage cfg h then
    match write (url ++ "\n") with
    | some err => ⟨[url ++ "\n"], [], [err]⟩
    | none => ⟨[url ++ "\n"], [], []⟩
  else
    expandLayout2 cfg visit h (expandLayout1 cfg visit h Effects.empty)

/-- Lines written to the checkpoint file by a category pass whose `OnHTML`
callback is run on the bodies `pages`, in that order. -/
def categoryPassWritten (cfg : Config) (write : String → Option GoError)
    (visit : String → Option GoError) (pages : List Body) : List String :=
  pages.foldl (fun acc h => acc ++ (collectLeafCategoryURLs cfg write visit h).written) []

/-! ## The capacity-one result channel -/

/-- State of a channel created by `make(chan error, 1)`. -/
structure ChanState where
  buf : Option GoError
  closed : Bool
  deriving DecidableEq, Repr

def ChanState.fresh : ChanState := ⟨none, false⟩

/-- The channel value held by a handler: the nil channel, or the channel the
caller is blocked on. -/
inductive Chan where
  | nil : Chan
  | errChan : Chan
  deriving DecidableEq, Repr

/-- The statement `select { case ch <- e: default: }`.  A send on the nil channel
is never ready, and a send on a full buffer is not ready either: in both cases
the `default` branch runs. -/
def trySend (ch : Chan) (e : GoError) (st : ChanState) : ChanState :=
  match ch with
  | .nil => st
  | .errChan => if st.buf.isNone then { st with buf := some e } else st

/-- What the fetch engine does during one call of `c.Visit`. -/
structure VisitRun where
  /-- Field `StatusCode` of each response passed to the `OnError` callback during
  the call, in order. -/
  errorStatuses : List Int
  /-- Value returned by `c.Visit`. -/
  ret : Option GoError

/-- Steps of the goroutine `go func() { err := c.Visit(..); ..; close(errChan) }()`
that touch the channel. -/
inductive Step where
  | onError (statusCode : Int) : Step
  | visitReturned (err : Option GoError) : Step
  | close : Step

def goroutineSteps (v : VisitRun) : List Step :=
  v.errorStatuses.map Step.onError ++ [Step.visitReturned v.ret, Step.close]

/-- Effect of one goroutine step on the result channel; `cb` is the channel
captured by the `OnError` callback. -/
def stepChan (cb : Chan) (st : ChanState) : Step → ChanState
  | .onError statusCode =>
    if statusCode = 0 then trySend cb GoError.ErrContextTimeout st else st
  | .visitReturned (some err) => trySend Chan.errChan err st
  | .visitReturned none => st
  | .close => { st with closed := true }

/-- The receive `err := <-errChan` is enabled. -/
def recvReady (st : ChanState) : Bool := st.buf.isSome || st.closed

/-- The caller blocked in `err := <-errChan` while the goroutine runs `steps`.
The receive happens once it is enabled and the goroutine has made `delay`
further steps (or has finished).  Result `none`: the receive is never enabled;
`some v`: the value received (`none` is Go `nil`, read from the closed channel). -/
def awaitResult (cb : Chan) : List Step → Nat → ChanState → Option (Option GoError)
  | [], _, st => if recvReady st then some st.buf else none
  | s :: rest, delay, st =>
    if recvReady st then
      match delay with
      | 0 => some st.buf
      | d + 1 => awaitResult cb rest d (stepChan cb st s)
    else awaitResult cb rest delay (stepChan cb st s)

/-! ## Crawl driver (`category_urls.go`, lines 12-74) -/

/-- One traversal attempt.  `run` is what the root `c.Visit` does (the `OnError`
callback is registered with `errChan` itself). -/
def scrapeLeafCateories (run : VisitRun) (delay : Nat) : Option (Option GoError) :=
  awaitResult Chan.errChan (goroutineSteps run) delay ChanState.fresh

/-! ## Retry controller of the category pass (`scraper.go`, lines 116-156) -/

structure RetryState where
  /-- Values returned by the calls of `scrapeLeafCateories`, in call order. -/
  attempts : List (Option GoError)
  lastErr : Option GoError

/-- The loop `for i := 0; i < MaxRetriesCategories; i++`, entered with `remaining`
iterations left before the loop condition fails. -/
def categoryRetryLoop (attempt : Nat → Option GoError) :
    Nat → Nat → RetryState → RetryState
  | 0, _, st => st
  | remaining + 1, i, st =>
    match attempt i with
    | none => { st with attempts := st.attempts ++ [none] }
    | some err =>
      if isContextTimeout err then
        categoryRetryLoop attempt remaining (i + 1)
          { attempts := st.attempts ++ [some err], lastErr := some err }
      else { st with attempts := st.attempts ++ [some err] }

structure CategoryResult where
  attempts : List (Option GoError)
  /-- The exhaustion message was logged. -/
  exhaustionLogged : Bool
  ret : Option GoError

/-- The function `runCategoryScrape`.  `parseErr` is the error of
`url.Parse(TargetURL)`, `createErr` the error of `os.Create(CategoriesFile)`,
`attempt i` the value returned by the call of `scrapeLeafCateories` in iteration `i`. -/
def runCategoryScrape (cfg : Config) (parseErr createErr : Option GoError)
    (attempt : Nat → Option GoError) : CategoryResult :=
  match parseErr with
  | some err => ⟨[], false, some (GoError.wrapped "error parsing URL" err)⟩
  | none =>
    match createErr with
    | some err => ⟨[], false, some (GoError.wrapped "error creating output file" err)⟩
    | none =>
      let st := categoryRetryLoop attempt cfg.MaxRetriesCategories.toNat 0 ⟨[], none⟩
      ⟨st.attempts, st.lastErr.isSome, none⟩

/-! ## Product pass (`scraper.go`, lines 158-258) -/

/-- The delimiter `'\n'`. -/
def newline : UInt8 := 10

/-- The call `r.ReadBytes('\n')` on a `bufio.Reader` whose unread input is
`unread`: the bytes up to and including the first delimiter, the input left, and
whether `io.EOF` is returned (no delimiter was found; the data read is returned
with it). -/
def readBytes (unread : List UInt8) : List UInt8 × List UInt8 × Bool :=
  match unread.dropWhile (fun b => b != newline) with
  | [] => (unread, [], true)
  | _ :: rest => (unread.takeWhile (fun b => b != newline) ++ [newline], rest, false)

/-- The expression `strings.Split(string(line), "\n")[0]`. -/
def splitFirst (line : List UInt8) : List UInt8 :=
  line.takeWhile (fun b => b != newline)

/-- One visit dispatched by the product pass. -/
structure Dispatch where
  /-- Loop variable `i` of the retry loop. -/
  attempt : Nat
  /-- Value of `lineNum` when the line was read. -/
  lineNum : Nat
  /-- Value of `pos` when the line was read. -/
  pos : Nat
  /-- The value `leafURL`. -/
  leafURL : List UInt8
  /-- Argument `u.String()` of `c.Visit`. -/
  url : String
  /-- Value received from `errChan`. -/
  outcome : Option GoError
  deriving DecidableEq, Repr

/-- One iteration of the retry loop of the product pass. -/
structure AttemptLog where
  /-- Offset passed to `categoriesFile.Seek`. -/
  seek : Nat
  /-- Value of `pos` when the line-scanning loop ended. -/
  finish : Nat
  /-- The line-scanning loop ended on `io.EOF`. -/
  eof : Bool
  /-- Visits dispatched by this iteration, in order. -/
  dispatched : List Dispatch
  deriving DecidableEq, Repr

/-- Variables of `runProductsScrape` that outlive an iteration. -/
structure ProdState where
  pos : Nat
  lineNum : Nat
  lastErr : Option GoError
  /-- Number of calls of `c.Visit` made so far. -/
  visits : Nat
  deriving DecidableEq, Repr

/-- External collaborators of the product pass. -/
structure ProdEnv where
  /-- The call `url.Parse(leafURL)` followed by `u.String()`; `none` is a parse error. -/
  urlParse : List UInt8 → Option String
  /-- What the `n`-th call of `c.Visit` (counted from 0) does on the given URL. -/
  visit : Nat → String → VisitRun
  /-- Scheduling of the receive of the `n`-th visit, see `awaitResult`. -/
  delay : Nat → Nat

/-- The value the driver receives from `errChan` for the `n`-th visit.  The
collector was built by `setupProductDetailsCollector(w, errChan)` while `errChan`
was still the nil channel, so its `OnError` callback holds the nil channel. -/
def lineOutcome (env : ProdEnv) (n : Nat) (url : String) : Option (Option GoError) :=
  awaitResult Chan.nil (goroutineSteps (env.visit n url)) (env.delay n) ChanState.fresh

/-- The line-scanning loop `for { .. }` of iteration `i`.  Result `none`: the loop
does not come to an end within `fuel` iterations or a receive blocks forever.
The loop is read sequentially: the goroutine of a line is done with the channel
of that line before the loop makes the channel of the next line.  The other
schedules are those of `runProductsScrapeScheduled`. -/
def scanLines (env : ProdEnv) (i : Nat) :
    Nat → List UInt8 → ProdState → List Dispatch → Option (ProdState × Bool × List Dispatch)
  | 0, _, _, _ => none
  | fuel + 1, unread, st, ds =>
    match readBytes unread with
    | (_, _, true) => some (st, true, ds)
    | (line, rest, false) =>
      let st1 := { st with pos := st.pos + line.length, lineNum := st.lineNum + 1 }
      let leafURL := splitFirst line
      match env.urlParse leafURL with
      | none => scanLines env i fuel rest st1 ds
      | some u =>
        match lineOutcome env st.visits u with
        | none => none
        | some outcome =>
          let d : Dispatch := ⟨i, st.lineNum, st.pos, leafURL, u, outcome⟩
          let st2 := { st1 with visits := st.visits + 1 }
          match outcome with
          | none => scanLines env i fuel rest st2 (ds ++ [d])
          | some err =>
            if isContextTimeout err then some (st2, false, ds ++ [d])
            else scanLines env i fuel rest { st2 with lastErr := some err } (ds ++ [d])

/-- The loop `for i := 0; i < MaxRetriesProducts; i++`, entered with `remaining`
iterations left before the loop condition fails.  `Seek(pos, io.SeekStart)`
(which succeeds on a regular file) followed by `bufio.NewReader` leaves
`content.drop pos` unread. -/
def productRetryLoop (env : ProdEnv) (content : List UInt8) :
    Nat → Nat → ProdState → List AttemptLog → Option (ProdState × List AttemptLog)
  | 0, _, st, log => some (st, log)
  | remaining + 1, i, st, log =>
    let unread := content.drop st.pos
    match scanLines env i (unread.length + 1) unread st [] with
    | none => none
    | some (st1, eof, ds) =>
      productRetryLoop env content remaining (i + 1) st1 (log ++ [⟨st.pos, st1.pos, eof, ds⟩])

structure ProductsResult where
  attempts : List AttemptLog
  lastErr : Option GoError
  ret : Option GoError
  deriving DecidableEq, Repr

/-- All visits dispatched by a product pass, in order. -/
def ProductsResult.dispatched (r : ProductsResult) : List Dispatch :=
  r.attempts.flatMap AttemptLog.dispatched

/-- The function `runProductsScrape`.  `createErr` is the error of
`os.Create(OutputFile)`, `openErr` the error of `os.Open(CategoriesFile)`,
`content` the bytes of the checkpoint file.  The file is read without I/O errors
other than `io.EOF`. -/
def runProductsScrape (cfg : Config) (env : ProdEnv) (createErr openErr : Option GoError)
    (content : List UInt8) : Option ProductsResult :=
  match createErr with
  | some err => some ⟨[], none, some (GoError.wrapped "error creating output file" err)⟩
  | none =>
    match openErr with
    | some err => some ⟨[], none, some (GoError.wrapped "error opening urls file" err)⟩
    | none =>
      match productRetryLoop env content cfg.MaxRetriesProducts.toNat 0 ⟨0, 1, none, 0⟩ [] with
      | none => none
      | some (st, log) => some ⟨log, st.lastErr, none⟩

/-! ## Entry point (`scraper.go`, lines 106-114) -/

structure RunResult where
  /-- Result of `runCategoryScrape`, when it was called. -/
  category : Option CategoryResult
  /-- Result of `runProductsScrape`, when it was called. -/
  products : Option ProductsResult
  ret : Option GoError

/-- The function `Run`.  Result `none`: the product pass does not return. -/
def Run (cfg : Config) (parseErr createCatErr : Option GoError)
    (attempt : Nat → Option GoError) (env : ProdEnv) (createOutErr openErr : Option GoError)
    (content : List UInt8) : Option RunResult :=
  if !cfg.SkipCategoryScraping then
    let c := runCategoryScrape cfg parseErr createCatErr attempt
    match c.ret with
    | some err => some ⟨some c, none, some err⟩
    | none =>
      match runProductsScrape cfg env createOutErr openErr content with
      | none => none
      | some p => some ⟨some c, some p, p.ret⟩
  else
    match runProductsScrape cfg env createOutErr openErr content with
    | none => none
    | some p => some ⟨none, some p, p.ret⟩

/-! ## Product pass under an arbitrary schedule (`scraper.go`, lines 185-248)

The closure `go func() { .. }()` of the line loop does not capture a channel but
the variable `errChan`, which the driver assigns anew for every line.  The
definitions below run the driver and the goroutines it started one step at a
time in the order given by a schedule, so that a goroutine may execute
`errChan <- err` or `close(errChan)` after the driver has assigned the variable
again.  `scanLines` above is the loop under the schedules in which every
goroutine has finished when the driver leaves its receive: each of its runs is
a run under some schedule (`runProductsScrape_scheduled`), and what it shows
about the order of the dispatched lines holds under every schedule
(`runProductsScrapeScheduled_inv`). -/

/-- A goroutine started by the line loop, as recorded when it is started. -/
structure Spawned where
  /-- Loop variable `i` of the retry loop. -/
  attempt : Nat
  /-- Value of `lineNum` when the line was read. -/
  lineNum : Nat
  /-- Value of `pos` when the line was read. -/
  pos : Nat
  /-- The value `leafURL`. -/
  leafURL : List UInt8
  /-- Argument `u.String()` of `c.Visit`. -/
  url : String
  deriving DecidableEq, Repr

/-- Where a goroutine of the line loop stands. -/
inductive GoPhase where
  /-- Inside the `n`-th call of `c.Visit`. -/
  | visiting (n : Nat) (url : String) : GoPhase
  /-- `Visit` returned `err != nil`; the `select` comes next. -/
  | sending (err : GoError) : GoPhase
  /-- The statement `close(errChan)` comes next. -/
  | closing : GoPhase
  | done : GoPhase
  deriving DecidableEq, Repr

structure Goroutine where
  /-- Iteration of the retry loop whose variable `errChan` the closure captured. -/
  attempt : Nat
  phase : GoPhase
  deriving DecidableEq, Repr

/-- Where the driver stands. -/
inductive DriverPhase where
  /-- At the head of the body of `for { .. }`. -/
  | top : DriverPhase
  /-- Blocked in `err = <-errChan`, where `errChan` evaluated to channel `ch`. -/
  | receiving (ch : Nat) : DriverPhase
  /-- The function `runProductsScrape` has returned. -/
  | returned : DriverPhase
  deriving DecidableEq, Repr

structure RaceState where
  /-- Channels made so far; a channel value is an index into this list. -/
  chans : List ChanState
  /-- The variable `errChan` of every iteration of the retry loop entered so far;
  `none` is the nil channel. -/
  errChanVars : List (Option Nat)
  /-- Goroutines in the order they were started. -/
  goroutines : List Goroutine
  driver : DriverPhase
  /-- Loop variable `i` of the retry loop. -/
  i : Nat
  /-- Input the current `bufio.Reader` has not returned yet. -/
  unread : List UInt8
  vars : ProdState
  /-- Goroutines started, with what they were started for. -/
  spawned : List Spawned
  /-- A goroutine panicked: the process is gone. -/
  panicked : Bool
  deriving DecidableEq, Repr

/-- End of an iteration of the retry loop (after `break`): `i++`, the loop
condition, and the head of the next iteration (`Seek`, a new reader, a new
variable `errChan` holding nil) or the `return nil` after the loop. -/
def endAttempt (cfg : Config) (content : List UInt8) (s : RaceState) : RaceState :=
  if (s.i : Int) + 1 < cfg.MaxRetriesProducts then
    { s with i := s.i + 1, errChanVars := s.errChanVars ++ [none],
             unread := content.drop s.vars.pos, driver := DriverPhase.top }
  else { s with driver := DriverPhase.returned }

/-- One step of the driver: from the head of the loop body up to the receive, or
the receive with what follows it in the body. -/
def driverStep (cfg : Config) (env : ProdEnv) (content : List UInt8) (s : RaceState) :
    RaceState :=
  match s.driver with
  | .returned => s
  | .top =>
    let ch := s.chans.length
    let s1 := { s with chans := s.chans ++ [ChanState.fresh],
                       errChanVars := s.errChanVars.set s.i (some ch) }
    match readBytes s.unread with
    | (_, _, true) => endAttempt cfg content s1
    | (line, rest, false) =>
      let st1 := { s.vars with pos := s.vars.pos + line.length, lineNum := s.vars.lineNum + 1 }
      let leafURL := splitFirst line
      match env.urlParse leafURL with
      | none => { s1 with unread := rest, vars := st1 }
      | some u =>
        { s1 with unread := rest, vars := { st1 with visits := s.vars.visits + 1 },
                  goroutines := s.goroutines ++ [⟨s.i, GoPhase.visiting s.vars.visits u⟩],
                  spawned := s.spawned ++ [⟨s.i, s.vars.lineNum, s.vars.pos, leafURL, u⟩],
                  driver := DriverPhase.receiving ch }
  | .receiving ch =>
    match s.chans.get? ch with
    | none => s
    | some c =>
      match c.buf with
      | some err =>
        let s1 := { s with chans := s.chans.set ch { c with buf := none } }
        if isContextTimeout err then endAttempt cfg content s1
        else { s1 with vars := { s.vars with lastErr := some err }, driver := DriverPhase.top }
      | none => if c.closed then { s with driver := DriverPhase.top } else s

/-- The goroutine with index `k` moves to `phase`. -/
def setPhase (s : RaceState) (k : Nat) (g : Goroutine) (phase : GoPhase) : RaceState :=
  { s with goroutines := s.goroutines.set k { g with phase := phase } }

/-- One step of the goroutine with index `k`: the return of `c.Visit` (the
`OnError` callback holds the nil channel and leaves every channel alone), the
`select`, or the `close`.  The variable `errChan` is read when the statement
runs.  A send on a closed channel and a close of a closed or nil channel panic. -/
def goroutineStep (env : ProdEnv) (k : Nat) (s : RaceState) : RaceState :=
  match s.goroutines.get? k with
  | none => s
  | some g =>
    match g.phase with
    | .done => s
    | .visiting n url =>
      match (env.visit n url).ret with
      | some err => setPhase s k g (GoPhase.sending err)
      | none => setPhase s k g GoPhase.closing
    | .sending err =>
      match (s.errChanVars.get? g.attempt).join with
      | none => setPhase s k g GoPhase.closing
      | some ch =>
        match s.chans.get? ch with
        | none => s
        | some c =>
          if c.closed then { s with panicked := true }
          else if c.buf.isNone then
            setPhase { s with chans := s.chans.set ch { c with buf := some err } } k g
              GoPhase.closing
          else setPhase s k g GoPhase.closing
    | .closing =>
      match (s.errChanVars.get? g.attempt).join with
      | none => { s with panicked := true }
      | some ch =>
        match s.chans.get? ch with
        | none => s
        | some c =>
          if c.closed then { s with panicked := true }
          else setPhase { s with chans := s.chans.set ch { c with closed := true } } k g
            GoPhase.done

/-- One step of thread `t` (0 is the driver, `k + 1` the goroutine with index
`k`).  Nothing moves after a panic or after the driver has returned. -/
def raceStep (cfg : Config) (env : ProdEnv) (content : List UInt8) (s : RaceState) (t : Nat) :
    RaceState :=
  if s.panicked then s
  else if s.driver = DriverPhase.returned then s
  else
    match t with
    | 0 => driverStep cfg env content s
    | k + 1 => goroutineStep env k s

/-- State in which the first iteration of the retry loop is entered, after
`os.Create` and `os.Open` succeeded. -/
def raceInit (cfg : Config) (content : List UInt8) : RaceState :=
  if (0 : Int) < cfg.MaxRetriesProducts then
    ⟨[], [none], [], DriverPhase.top, 0, content, ⟨0, 1, none, 0⟩, [], false⟩
  else ⟨[], [], [], DriverPhase.returned, 0, content, ⟨0, 1, none, 0⟩, [], false⟩

/-- The product pass with its threads stepped in the order `schedule`. -/
def runProductsScrapeScheduled (cfg : Config) (env : ProdEnv) (content : List UInt8)
    (schedule : List Nat) : RaceState :=
  schedule.foldl (raceStep cfg env content) (raceInit cfg content)

/-- Bytes of an ASCII string, for writing down file contents. -/
def bytes (s : String) : List UInt8 := s.data.map (fun c => c.toNat.toUInt8)

/-! ## Derived notions used in the statements -/

/-- The title by which the classifier judges a matched module. -/
def moduleTitle (g : Section) : String := g.ChildText "h2.section-title__title"

/-- A matched module with a non-empty title other than "Shop by Category". -/
def leafSignal (g : Section) : Bool :=
  decide (moduleTitle g ≠ "") && decide (moduleTitle g ≠ "Shop by Category")

/-- Targets of the candidate anchors of layout 1, in document order: the `href`
of every `a.b-textlink` anchor whose text does not contain "See all", inside the
groups titled exactly "Shop by Category". -/
def layout1Candidates (h : Body) : List String :=
  ((h.ForEach "div.dialog__cell > section:first-of-type").filter
      (fun m => decide (m.ChildText "h2.section-title__title" = "Shop by Category"))).flatMap
    (fun m => ((m.ForEach "a.b-textlink").filter
      (fun d => !stringsContains d.Text "See all")).map (fun d => d.Attr "href"))

/-- Targets of the candidate anchors of layout 2, in document order: the `href`
of every `a.textual-display.brw-category-nav__link` anchor inside the groups
titled exactly "Shop by Category". -/
def layout2Candidates (h : Body) : List String :=
  ((h.ForEach "section.brw-category-nav.brw-has-parentnode:first-of-type").filter
      (fun m => decide (m.ChildText "span.textual-display.brw-category-nav__title"
        = "Shop by Category"))).flatMap
    (fun m => (m.ForEach "a.textual-display.brw-category-nav__link").map (fun d => d.Attr "href"))

/-- Result `r` of a stretch of callbacks entered with counter `c` and effects `e`:
of the candidate targets `cand` exactly those met while the counter is at most
`cap` were passed to `c.Visit`, nothing was written, and the counter grew by
their number. -/
def Capped (cap : Int) (c : Int) (e : Effects) (cand : List String) (r : Int × Effects) : Prop :=
  r.2.visited = e.visited ++ cand.take (cap + 1 - c).toNat
    ∧ r.2.written = e.written
    ∧ r.1 = c + ((cand.take (cap + 1 - c).toNat).length : Int)

/-- Values the goroutine of one traversal attempt offers to the result channel,
in order: `ErrContextTimeout` for every error callback with status code zero,
then the error of the root `Visit` when it is not nil. -/
def offered (run : VisitRun) : List GoError :=
  (run.errorStatuses.filter (fun c => decide (c = 0))).map (fun _ => GoError.ErrContextTimeout)
    ++ run.ret.toList

/-- The outcome is a stall: `err != nil` and `errors.Is(err, ErrContextTimeout)`. -/
def isStalled : Option GoError → Bool
  | none => false
  | some err => isContextTimeout err

/-- Number of the line that starts at byte offset `p` of `content` (lines are
counted from 1). -/
def lineNo (content : List UInt8) (p : Nat) : Nat := 1 + (content.take p).count newline

/-- Visit `d1` is for an earlier line of the file than visit `d2`. -/
def Before (d1 d2 : Dispatch) : Prop := d1.pos < d2.pos ∧ d1.lineNum < d2.lineNum

/-- Visit `d` is for the line of `content` that starts at `d.pos`, and that line
lies in the byte range from `p` to `q`. -/
def LineIn (content : List UInt8) (p q : Nat) (d : Dispatch) : Prop :=
  p ≤ d.pos ∧ d.pos < q
    ∧ d.lineNum = lineNo content d.pos
    ∧ lineNo content p ≤ d.lineNum ∧ d.lineNum < lineNo content q
    ∧ d.leafURL = splitFirst (content.drop d.pos)

/-- Postcondition of the line-scanning loop entered at byte offset `p` with the
visits `ds` already recorded. -/
def ScanPost (content : List UInt8) (p : Nat) (ds : List Dispatch)
    (res : Option (ProdState × Bool × List Dispatch)) : Prop :=
  ∃ st eof new, res = some (st, eof, ds ++ new)
    ∧ p ≤ st.pos ∧ st.pos ≤ content.length
    ∧ st.lineNum = lineNo content st.pos
    ∧ (∀ d ∈ new, LineIn content p st.pos d)
    ∧ new.Pairwise Before

/-- Iteration `b` of the retry loop resumes where iteration `a` stopped: it seeks
to the offset `a` reached and dispatches no visit for a line before that offset. -/
def Resumes (content : List UInt8) (a b : AttemptLog) : Prop :=
  b.seek = a.finish
    ∧ ∀ d ∈ b.dispatched, a.finish ≤ d.pos ∧ (content.take a.finish).count newline < d.lineNum

/-- Invariant of the retry loop of the product pass. -/
def LogInv (content : List UInt8) (st : ProdState) (log : List AttemptLog) : Prop :=
  st.pos ≤ content.length ∧ st.lineNum = lineNo content st.pos
    ∧ (∀ a ∈ log, a.seek ≤ a.finish ∧ ∀ d ∈ a.dispatched, LineIn content a.seek a.finish d)
    ∧ log.Chain' (Resumes content)
    ∧ (∀ a ∈ log.getLast?, a.finish = st.pos)
    ∧ (log.flatMap AttemptLog.dispatched).Pairwise Before
    ∧ (∀ d ∈ log.flatMap AttemptLog.dispatched, d.pos < st.pos ∧ d.lineNum < st.lineNum)

/-- Goroutine `d1` was started for an earlier line of the file than `d2`. -/
def SpawnedBefore (d1 d2 : Spawned) : Prop := d1.pos < d2.pos ∧ d1.lineNum < d2.lineNum

/-- Invariant of the product pass under any schedule: the reader stands at the
cursor, the cursor is at the start of line `lineNum`, and the goroutines started
so far are for distinct lines before the cursor, in file order. -/
def RaceInv (content : List UInt8) (s : RaceState) : Prop :=
  s.vars.pos ≤ content.length
    ∧ s.unread = content.drop s.vars.pos
    ∧ s.vars.lineNum = lineNo content s.vars.pos
    ∧ s.spawned.Pairwise SpawnedBefore
    ∧ ∀ d ∈ s.spawned, d.pos < s.vars.pos ∧ d.lineNum < s.vars.lineNum
        ∧ d.lineNum = lineNo content d.pos ∧ d.leafURL = splitFirst (content.drop d.pos)

/-- What the sequential model records of a visit, as a started goroutine. -/
def Dispatch.toSpawned (d : Dispatch) : Spawned :=
  ⟨d.attempt, d.lineNum, d.pos, d.leafURL, d.url⟩

/-- The driver stands at the head of the loop body in iteration `i` of the retry
loop with the given reader, variables and started goroutines, every goroutine
has finished and nothing has panicked. -/
def AtTop (s : RaceState) (i : Nat) (unread : List UInt8) (st : ProdState)
    (sp : List Spawned) : Prop :=
  s.panicked = false ∧ s.driver = DriverPhase.top
    ∧ (∀ g ∈ s.goroutines, g.phase = GoPhase.done)
    ∧ s.errChanVars.length = i + 1 ∧ s.i = i ∧ s.unread = unread ∧ s.vars = st
    ∧ s.spawned = sp

/-- Iteration `i` of the retry loop has ended with variables `st`: the driver
stands at the head of the next iteration or has returned. -/
def AttemptEnded (cfg : Config) (content : List UInt8) (s : RaceState) (i : Nat)
    (st : ProdState) (sp : List Spawned) : Prop :=
  if (i : Int) + 1 < cfg.MaxRetriesProducts then AtTop s (i + 1) (content.drop st.pos) st sp
  else s.panicked = false ∧ s.driver = DriverPhase.returned ∧ s.vars = st ∧ s.spawned = sp

/-! ## Concrete inputs -/

/-- An anchor with the given text and `href`. -/
def mkAnchor (text href : String) : Anchor :=
  ⟨text, fun name => if name = "href" then href else ""⟩

def sixAnchors : List Anchor :=
  [mkAnchor "Toys" "/b/1", mkAnchor "Games" "/b/2", mkAnchor "Dolls" "/b/3",
   mkAnchor "Puzzles" "/b/4", mkAnchor "Models" "/b/5", mkAnchor "Kites" "/b/6"]

/-- A root page with one "Shop by Category" group in each layout and no feature
module.  The group of layout 1 starts with a "See all" link followed by six
category links, the group of layout 2 has the six category links. -/
def twoSectionPage : Body :=
  ⟨"https://www.ebay.com/b/Toys-Hobbies/220/bn_1865497", fun sel =>
    if sel = "div.dialog__cell > section:first-of-type" then
      [⟨fun t => if t = "h2.section-title__title" then "Shop by Category" else "",
        fun a => if a = "a.b-textlink" then
          mkAnchor "See all in Toys" "/b/all" :: sixAnchors else []⟩]
    else if sel = "section.brw-category-nav.brw-has-parentnode:first-of-type" then
      [⟨fun t => if t = "span.textual-display.brw-category-nav__title" then "Shop by Category"
          else "",
        fun a => if a = "a.textual-display.brw-category-nav__link" then sixAnchors else []⟩]
    else []⟩

/-- The command-line defaults with a target URL. -/
def defaultConfig : Config :=
  ⟨"output/scraped_data.jsonl", "https://www.ebay.com/b/Toys-Hobbies/220/bn_1865497",
    "leaf_categories.txt", 3, 3, 5, 20, false⟩

/-- A `c.Visit` that fails on one child link. -/
def visitFailingOnce (url : String) : Option GoError :=
  if url = "/b/3" then some (GoError.other "Forbidden domain") else none

/-- The root page with a single matched feature module whose title is empty. -/
def untitledModulePage : Body :=
  ⟨"https://www.ebay.com/b/Toys-Hobbies/220/bn_1865497", fun sel =>
    if sel = "section.b-module.b-visualnav:first-of-type" then
      [⟨fun _ => "", fun _ => []⟩]
    else []⟩

/-- A page other than the root with a product carousel. -/
def carouselPage : Body :=
  ⟨"https://www.ebay.com/b/Action-Figures/246/bn_1648288", fun sel =>
    if sel = "section.brw-product-carousel:first-of-type" then
      [⟨fun t => if t = "h2.section-title__title" then "Best Selling" else "", fun _ => []⟩]
    else []⟩

/-- Outcomes of scenario C: a stall on the first attempt, then success. -/
def stallThenSuccess (i : Nat) : Option GoError :=
  if i = 0 then some GoError.ErrContextTimeout else none

/-- A checkpoint file of two lines. -/
def twoLines : List (List UInt8) := [bytes "https://www.ebay.com/b/1", bytes "https://www.ebay.com/b/2"]

/-- A parser that accepts every line and prints it back. -/
def parseAny (l : List UInt8) : Option String :=
  some (String.mk (l.map (fun b => Char.ofNat b.toNat)))

/-- A fetch engine whose first visit ends in a connection-level failure: the
error callback fires with status code zero and `Visit` returns the error; every
later visit succeeds. -/
def firstVisitTimesOut : ProdEnv :=
  ⟨parseAny,
    fun n _ => if n = 0 then ⟨[0], some (GoError.other "context deadline exceeded")⟩
      else ⟨[], none⟩,
    fun _ => 0⟩

/-- A checkpoint file of three lines. -/
def threeLines : List (List UInt8) :=
  [bytes "https://www.ebay.com/b/1", bytes "https://www.ebay.com/b/2",
   bytes "https://www.ebay.com/b/3"]

/-- A fetch engine whose first visit returns an HTTP error (status 404, not a
stall) and whose later visits succeed. -/
def firstVisitNotFound : ProdEnv :=
  ⟨parseAny,
    fun n _ => if n = 0 then ⟨[404], some (GoError.other "Not Found")⟩ else ⟨[], none⟩,
    fun _ => 0⟩

/-- A schedule in which the first goroutine runs its `close(errChan)` only after
the driver has made the channel of line 2, and the second goroutine finishes
before the driver moves on. -/
def lateCloseSchedule : List Nat := [0, 1, 1, 0, 0, 1, 2, 2]

/-- A schedule in which every goroutine finishes before the driver moves on. -/
def inOrderSchedule : List Nat := [0, 1, 1, 1, 0, 0, 2, 2, 0, 0, 3, 3, 0, 0, 0, 0]

/-! ## Page classifier: proofs -/

theorem foldl_checkTitle (cfg : Config) (url : String) (gs : List Section) (acc : Bool) :
    gs.foldl (checkTitle cfg url) acc
      = (acc || (isRootPage cfg.TargetURL url && gs.any leafSignal)) := by
  induction gs generalizing acc with
  | nil => simp
  | cons g gs ih =>
    rw [List.foldl_cons, ih]
    by_cases h1 : g.ChildText "h2.section-title__title" = ""
    · simp [checkTitle, leafSignal, moduleTitle, h1]
    · by_cases h2 : g.ChildText "h2.section-title__title" = "Shop by Category"
      · simp [checkTitle, leafSignal, moduleTitle, h2]
      · by_cases h3 : isRootPage cfg.TargetURL url = true
        · simp [checkTitle, leafSignal, moduleTitle, h1, h2, h3]
        · simp [checkTitle, leafSignal, moduleTitle, h1, h2, h3]

theorem foldl_selectors (cfg : Config) (h : Body) (sels : List String) (acc : Bool) :
    sels.foldl (fun isLeaf selector => (h.ForEach selector).foldl (checkTitle cfg h.url) isLeaf)
        acc
      = (acc || (isRootPage cfg.TargetURL h.url
          && sels.any (fun sel => (h.ForEach sel).any leafSignal))) := by
  induction sels generalizing acc with
  | nil => simp
  | cons s sels ih =>
    rw [List.foldl_cons, ih, foldl_checkTitle]
    cases acc <;> cases isRootPage cfg.TargetURL h.url <;> simp

theorem isLeafCategoryPage_eq (cfg : Config) (h : Body) :
    isLeafCategoryPage cfg h
      = (isRootPage cfg.TargetURL h.url
          && selectors.any (fun sel => (h.ForEach sel).any leafSignal)) := by
  unfold isLeafCategoryPage
  rw [foldl_selectors]
  simp

theorem isRootPage_iff (root u : String) : isRootPage root u = true ↔ u = root := by
  unfold isRootPage
  by_cases h : root = u
  · simp [h]
  · simp [h]; exact fun h2 => h h2.symm

/-- C7: a page whose URL differs from the configured root URL is never classified
leaf, whatever modules it contains. -/
theorem isLeafCategoryPage_false_of_not_root (cfg : Config) (h : Body)
    (hne : h.url ≠ cfg.TargetURL) : isLeafCategoryPage cfg h = false := by
  rw [isLeafCategoryPage_eq]
  have : isRootPage cfg.TargetURL h.url = false := by
    cases hr : isRootPage cfg.TargetURL h.url
    · rfl
    · exact absurd ((isRootPage_iff _ _).1 hr) hne
  simp [this]

/-- C8 (amended): a page is classified leaf exactly when its URL equals the root
URL and some module matched by one of the five selectors has a non-empty title
other than "Shop by Category"; a page without any matched module is branch. -/
theorem isLeafCategoryPage_iff (cfg : Config) (h : Body) :
    (isLeafCategoryPage cfg h = true ↔
      (h.url = cfg.TargetURL ∧ ∃ sel ∈ selectors, ∃ g ∈ h.ForEach sel,
        g.ChildText "h2.section-title__title" ≠ ""
          ∧ g.ChildText "h2.section-title__title" ≠ "Shop by Category"))
    ∧ ((∀ sel ∈ selectors, h.ForEach sel = []) → isLeafCategoryPage cfg h = false) := by
  constructor
  · rw [isLeafCategoryPage_eq]
    simp only [Bool.and_eq_true, isRootPage_iff, List.any_eq_true, leafSignal, moduleTitle,
      decide_eq_true_eq]
  · intro hnone
    rw [isLeafCategoryPage_eq]
    have : selectors.any (fun sel => (h.ForEach sel).any leafSignal) = false := by
      rw [List.any_eq_false]
      intro sel hsel
      simp [hnone sel hsel]
    simp [this]


/-! ## Category expander: proofs -/

theorem capped_nil (cap c : Int) (e : Effects) : Capped cap c e [] (c, e) := by
  simp [Capped]

theorem capped_append {cap c : Int} {e : Effects} {A B : List String}
    {r1 r2 : Int × Effects} (h1 : Capped cap c e A r1) (h2 : Capped cap r1.1 r1.2 B r2) :
    Capped cap c e (A ++ B) r2 := by
  obtain ⟨hv1, hw1, hc1⟩ := h1
  obtain ⟨hv2, hw2, hc2⟩ := h2
  have hlen : (A.take (cap + 1 - c).toNat).length = min (cap + 1 - c).toNat A.length :=
    List.length_take _ _
  have hbud : (cap + 1 - r1.1).toNat = (cap + 1 - c).toNat - A.length := by
    rw [hc1, hlen]; omega
  rw [hbud] at hv2 hc2
  refine ⟨?_, ?_, ?_⟩
  · rw [hv2, hv1, List.take_append_eq_append_take, List.append_assoc]
  · rw [hw2, hw1]
  · rw [hc2, hc1, List.take_append_eq_append_take, List.length_append]
    push_cast
    ring

theorem capped_foldl {α : Type} (cap : Int) (f : Int × Effects → α → Int × Effects)
    (cand : α → List String) (hstep : ∀ st a, Capped cap st.1 st.2 (cand a) (f st a))
    (l : List α) (st : Int × Effects) :
    Capped cap st.1 st.2 (l.flatMap cand) (l.foldl f st) := by
  induction l generalizing st with
  | nil => exact capped_nil cap st.1 st.2
  | cons a l ih =>
    rw [List.flatMap_cons, List.foldl_cons]
    exact capped_append (hstep st a) (ih (f st a))

theorem doVisit_visited (visit : String → Option GoError) (url : String) (e : Effects) :
    (doVisit visit url e).visited = e.visited ++ [url]
      ∧ (doVisit visit url e).written = e.written := by
  unfold doVisit
  cases visit url <;> simp

theorem capped_single (cfg : Config) (visit : String → Option GoError) (st : Int × Effects)
    (url : String) :
    Capped cfg.MaxCategoriesPerPage st.1 st.2 [url]
      (if st.1 > cfg.MaxCategoriesPerPage then st
        else (st.1 + 1, doVisit visit url st.2)) := by
  by_cases hc : st.1 > cfg.MaxCategoriesPerPage
  · have h0 : (cfg.MaxCategoriesPerPage + 1 - st.1).toNat = 0 := by omega
    simp [Capped, hc, h0]
  · obtain ⟨k, hk⟩ : ∃ k, (cfg.MaxCategoriesPerPage + 1 - st.1).toNat = k + 1 :=
      ⟨(cfg.MaxCategoriesPerPage + 1 - st.1).toNat - 1, by omega⟩
    simp [Capped, hc, hk, doVisit_visited]

theorem layout2Anchor_capped (cfg : Config) (visit : String → Option GoError)
    (st : Int × Effects) (d : Anchor) :
    Capped cfg.MaxCategoriesPerPage st.1 st.2 [d.Attr "href"] (layout2Anchor cfg visit st d) :=
  capped_single cfg visit st (d.Attr "href")

theorem layout1Anchor_capped (cfg : Config) (visit : String → Option GoError)
    (st : Int × Effects) (d : Anchor) :
    Capped cfg.MaxCategoriesPerPage st.1 st.2
      (if (!stringsContains d.Text "See all") = true then [d.Attr "href"] else [])
      (layout1Anchor cfg visit st d) := by
  unfold layout1Anchor
  by_cases hs : (!stringsContains d.Text "See all") = true
  · rw [if_pos hs, if_pos hs]
    exact capped_single cfg visit st (d.Attr "href")
  · rw [if_neg hs, if_neg hs]
    exact capped_nil _ _ _

theorem flatMap_ite_eq_filter {α β : Type} (p : α → Prop) [DecidablePred p] (g : α → List β)
    (l : List α) :
    l.flatMap (fun a => if p a then g a else []) = (l.filter (fun a => decide (p a))).flatMap g := by
  induction l with
  | nil => rfl
  | cons a l ih =>
    by_cases hp : p a
    · simp [List.flatMap_cons, List.filter_cons, hp, ih]
    · simp [List.flatMap_cons, List.filter_cons, hp, ih]

theorem flatMap_singleton_eq_map {α β : Type} (g : α → β) (l : List α) :
    l.flatMap (fun a => [g a]) = l.map g := by
  induction l with
  | nil => rfl
  | cons a l ih => simp [List.flatMap_cons, ih]

theorem layout1Anchors_capped (cfg : Config) (visit : String → Option GoError)
    (st : Int × Effects) (ds : List Anchor) :
    Capped cfg.MaxCategoriesPerPage st.1 st.2
      ((ds.filter (fun d => !stringsContains d.Text "See all")).map (fun d => d.Attr "href"))
      (ds.foldl (layout1Anchor cfg visit) st) := by
  have key := capped_foldl cfg.MaxCategoriesPerPage (layout1Anchor cfg visit) _
    (layout1Anchor_capped cfg visit) ds st
  have e1 := flatMap_ite_eq_filter (fun d : Anchor => (!stringsContains d.Text "See all") = true)
    (fun d : Anchor => [d.Attr "href"]) ds
  rw [e1, flatMap_singleton_eq_map] at key
  simpa using key

theorem layout2Anchors_capped (cfg : Config) (visit : String → Option GoError)
    (st : Int × Effects) (ds : List Anchor) :
    Capped cfg.MaxCategoriesPerPage st.1 st.2 (ds.map (fun d => d.Attr "href"))
      (ds.foldl (layout2Anchor cfg visit) st) := by
  have key := capped_foldl cfg.MaxCategoriesPerPage (layout2Anchor cfg visit) _
    (layout2Anchor_capped cfg visit) ds st
  rw [flatMap_singleton_eq_map] at key
  exact key

theorem layout1Section_capped (cfg : Config) (visit : String → Option GoError)
    (st : Int × Effects) (m : Section) :
    Capped cfg.MaxCategoriesPerPage st.1 st.2
      (if m.ChildText "h2.section-title__title" = "Shop by Category" then
          ((m.ForEach "a.b-textlink").filter
            (fun d => !stringsContains d.Text "See all")).map (fun d => d.Attr "href")
        else [])
      (layout1Section cfg visit st m) := by
  unfold layout1Section
  by_cases ht : m.ChildText "h2.section-title__title" = "Shop by Category"
  · have hne : ¬ (m.ChildText "h2.section-title__title" = "") := by rw [ht]; decide
    simp only [if_pos ht, if_neg hne]
    exact layout1Anchors_capped cfg visit st _
  · simp only [if_neg ht]
    split <;> exact capped_nil _ _ _

theorem layout2Section_capped (cfg : Config) (visit : String → Option GoError)
    (st : Int × Effects) (m : Section) :
    Capped cfg.MaxCategoriesPerPage st.1 st.2
      (if m.ChildText "span.textual-display.brw-category-nav__title" = "Shop by Category" then
          (m.ForEach "a.textual-display.brw-category-nav__link").map (fun d => d.Attr "href")
        else [])
      (layout2Section cfg visit st m) := by
  unfold layout2Section
  by_cases ht : m.ChildText "span.textual-display.brw-category-nav__title" = "Shop by Category"
  · have hne : ¬ (m.ChildText "span.textual-display.brw-category-nav__title" = "") := by
      rw [ht]; decide
    simp only [if_pos ht, if_neg hne]
    exact layout2Anchors_capped cfg visit st _
  · simp only [if_neg ht]
    split <;> exact capped_nil _ _ _

theorem expandLayout1_spec (cfg : Config) (visit : String → Option GoError) (h : Body)
    (e : Effects) :
    (expandLayout1 cfg visit h e).visited
        = e.visited ++ (layout1Candidates h).take (cfg.MaxCategoriesPerPage + 1).toNat
      ∧ (expandLayout1 cfg visit h e).written = e.written := by
  have key := capped_foldl cfg.MaxCategoriesPerPage (layout1Section cfg visit) _
    (layout1Section_capped cfg visit) (h.ForEach "div.dialog__cell > section:first-of-type") (0, e)
  rw [flatMap_ite_eq_filter
    (fun m : Section => m.ChildText "h2.section-title__title" = "Shop by Category")] at key
  obtain ⟨hv, hw, _⟩ := key
  simp only [sub_zero] at hv
  exact ⟨hv, hw⟩

theorem expandLayout2_spec (cfg : Config) (visit : String → Option GoError) (h : Body)
    (e : Effects) :
    (expandLayout2 cfg visit h e).visited
        = e.visited ++ (layout2Candidates h).take (cfg.MaxCategoriesPerPage + 1).toNat
      ∧ (expandLayout2 cfg visit h e).written = e.written := by
  have key := capped_foldl cfg.MaxCategoriesPerPage (layout2Section cfg visit) _
    (layout2Section_capped cfg visit)
    (h.ForEach "section.brw-category-nav.brw-has-parentnode:first-of-type") (0, e)
  rw [flatMap_ite_eq_filter
    (fun m : Section => m.ChildText "span.textual-display.brw-category-nav__title"
      = "Shop by Category")] at key
  obtain ⟨hv, hw, _⟩ := key
  simp only [sub_zero] at hv
  exact ⟨hv, hw⟩

/-- C1: on a branch page with cap `C ≥ 0` the calls of `c.Visit` are, in order,
the first `C + 1` candidates of layout 1 followed by the first `C + 1` candidates
of layout 2 (the counter restarts at zero), whatever `c.Visit` returns; their
numbers are `min(N1, C + 1)` and `min(N2, C + 1)`. -/
theorem collectLeafCategoryURLs_branch_visits (cfg : Config)
    (write visit : String → Option GoError) (h : Body)
    (hbranch : isLeafCategoryPage cfg h = false) (hcap : 0 ≤ cfg.MaxCategoriesPerPage) :
    (collectLeafCategoryURLs cfg write visit h).visited
        = (layout1Candidates h).take (cfg.MaxCategoriesPerPage + 1).toNat
          ++ (layout2Candidates h).take (cfg.MaxCategoriesPerPage + 1).toNat
      ∧ (((layout1Candidates h).take (cfg.MaxCategoriesPerPage + 1).toNat).length : Int)
          = min ((layout1Candidates h).length : Int) (cfg.MaxCategoriesPerPage + 1)
      ∧ (((layout2Candidates h).take (cfg.MaxCategoriesPerPage + 1).toNat).length : Int)
          = min ((layout2Candidates h).length : Int) (cfg.MaxCategoriesPerPage + 1)
      ∧ ((collectLeafCategoryURLs cfg write visit h).visited.length : Int)
          = min ((layout1Candidates h).length : Int) (cfg.MaxCategoriesPerPage + 1)
            + min ((layout2Candidates h).length : Int) (cfg.MaxCategoriesPerPage + 1) := by
  have hv : (collectLeafCategoryURLs cfg write visit h).visited
      = (layout1Candidates h).take (cfg.MaxCategoriesPerPage + 1).toNat
        ++ (layout2Candidates h).take (cfg.MaxCategoriesPerPage + 1).toNat := by
    unfold collectLeafCategoryURLs
    simp only [hbranch, Bool.false_eq_true, if_false]
    rw [(expandLayout2_spec cfg visit h _).1, (expandLayout1_spec cfg visit h _).1]
    simp [Effects.empty]
  have hlen : ∀ l : List String,
      ((l.take (cfg.MaxCategoriesPerPage + 1).toNat).length : Int)
        = min (l.length : Int) (cfg.MaxCategoriesPerPage + 1) := by
    intro l
    rw [List.length_take]
    omega
  refine ⟨hv, hlen _, hlen _, ?_⟩
  rw [hv, List.length_append]
  push_cast
  rw [hlen, hlen]

/-- C10: a page classified leaf has exactly its URL followed by a newline handed
to the writer and no child visit; a page classified branch has nothing written;
and every line a category pass hands to the writer is the root URL followed by
a newline. -/
theorem collectLeafCategoryURLs_written (cfg : Config)
    (write visit : String → Option GoError) (h : Body) :
    (isLeafCategoryPage cfg h = true →
        (collectLeafCategoryURLs cfg write visit h).written = [h.url ++ "\n"]
          ∧ (collectLeafCategoryURLs cfg write visit h).visited = [])
      ∧ (isLeafCategoryPage cfg h = false →
        (collectLeafCategoryURLs cfg write visit h).written = [])
      ∧ (∀ pages : List Body, ∀ line ∈ categoryPassWritten cfg write visit pages,
        line = cfg.TargetURL ++ "\n") := by
  have hleaf : ∀ b : Body, isLeafCategoryPage cfg b = true →
      (collectLeafCategoryURLs cfg write visit b).written = [b.url ++ "\n"]
        ∧ (collectLeafCategoryURLs cfg write visit b).visited = [] := by
    intro b hb
    unfold collectLeafCategoryURLs
    simp only [hb, if_true]
    cases write (b.url ++ "\n") <;> simp
  have hbr : ∀ b : Body, isLeafCategoryPage cfg b = false →
      (collectLeafCategoryURLs cfg write visit b).written = [] := by
    intro b hb
    unfold collectLeafCategoryURLs
    simp only [hb, Bool.false_eq_true, if_false]
    rw [(expandLayout2_spec cfg visit b _).2, (expandLayout1_spec cfg visit b _).2]
    rfl
  refine ⟨hleaf h, hbr h, ?_⟩
  intro pages
  have gen : ∀ (ps : List Body) (acc : List String),
      (∀ line ∈ acc, line = cfg.TargetURL ++ "\n") →
      ∀ line ∈ ps.foldl
        (fun acc b => acc ++ (collectLeafCategoryURLs cfg write visit b).written) acc,
        line = cfg.TargetURL ++ "\n" := by
    intro ps
    induction ps with
    | nil => intro acc hacc; simpa using hacc
    | cons b ps ih =>
      intro acc hacc
      rw [List.foldl_cons]
      apply ih
      intro line hline
      rcases List.mem_append.1 hline with hl | hl
      · exact hacc line hl
      · cases hb : isLeafCategoryPage cfg b
        · rw [hbr b hb] at hl
          simp at hl
        · rw [(hleaf b hb).1] at hl
          rw [isLeafCategoryPage_eq, Bool.and_eq_true, isRootPage_iff] at hb
          rw [List.mem_singleton] at hl
          rw [hl, hb.1]
  exact gen pages [] (by simp)

/-! ## Result channel: proofs -/

theorem stepChan_buf_some (cb : Chan) (st : ChanState) (s : Step) (v : GoError)
    (h : st.buf = some v) : (stepChan cb st s).buf = some v := by
  cases s with
  | onError c =>
    simp only [stepChan]
    split
    · cases cb <;> simp [trySend, h]
    · exact h
  | visitReturned err =>
    cases err with
    | none => simpa [stepChan] using h
    | some e => simp [stepChan, trySend, h]
  | close => simpa [stepChan] using h

theorem awaitResult_cons_blocked (cb : Chan) (s : Step) (rest : List Step) (delay : Nat)
    (st : ChanState) (h : recvReady st = false) :
    awaitResult cb (s :: rest) delay st = awaitResult cb rest delay (stepChan cb st s) := by
  simp [awaitResult, h]

/-- Once a value sits in the buffer, it is the value received, whatever the
goroutine does afterwards and whenever the receive is scheduled. -/
theorem awaitResult_of_buf (cb : Chan) (steps : List Step) (delay : Nat) (st : ChanState)
    (v : GoError) (h : st.buf = some v) : awaitResult cb steps delay st = some (some v) := by
  induction steps generalizing delay st with
  | nil => simp [awaitResult, recvReady, h]
  | cons s rest ih =>
    have hr : recvReady st = true := by simp [recvReady, h]
    cases delay with
    | zero => simp [awaitResult, hr, h]
    | succ d =>
      simp only [awaitResult, hr, if_true]
      exact ih d _ (stepChan_buf_some cb st s v h)

theorem awaitResult_tail (cb : Chan) (ret : Option GoError) (delay : Nat) :
    awaitResult cb [Step.visitReturned ret, Step.close] delay ChanState.fresh = some ret := by
  cases ret with
  | none =>
    simp [awaitResult, recvReady, ChanState.fresh, stepChan]
  | some e =>
    have h1 : recvReady ChanState.fresh = false := rfl
    rw [awaitResult_cons_blocked _ _ _ _ _ h1]
    exact awaitResult_of_buf cb _ delay _ e (by simp [stepChan, trySend, ChanState.fresh])

theorem awaitResult_errChan (statuses : List Int) (ret : Option GoError) (delay : Nat) :
    awaitResult Chan.errChan (statuses.map Step.onError ++ [Step.visitReturned ret, Step.close])
        delay ChanState.fresh
      = some (if (0 : Int) ∈ statuses then some GoError.ErrContextTimeout else ret) := by
  induction statuses with
  | nil =>
    simp only [List.map_nil, List.nil_append, List.not_mem_nil, if_false]
    exact awaitResult_tail Chan.errChan ret delay
  | cons c cs ih =>
    have h1 : recvReady ChanState.fresh = false := rfl
    rw [List.map_cons, List.cons_append, awaitResult_cons_blocked _ _ _ _ _ h1]
    by_cases hc : c = 0
    · subst hc
      simp only [List.mem_cons, true_or, if_true]
      exact awaitResult_of_buf _ _ delay _ _ (by simp [stepChan, trySend, ChanState.fresh])
    · have hst : stepChan Chan.errChan ChanState.fresh (Step.onError c) = ChanState.fresh := by
        simp [stepChan, hc]
      rw [hst, ih]
      have : (0 : Int) ∈ c :: cs ↔ (0 : Int) ∈ cs := by
        simp [List.mem_cons, Ne.symm hc]
      simp only [this]

theorem awaitResult_nil (statuses : List Int) (ret : Option GoError) (delay : Nat) :
    awaitResult Chan.nil (statuses.map Step.onError ++ [Step.visitReturned ret, Step.close])
        delay ChanState.fresh
      = some ret := by
  induction statuses with
  | nil =>
    simp only [List.map_nil, List.nil_append]
    exact awaitResult_tail Chan.nil ret delay
  | cons c cs ih =>
    have h1 : recvReady ChanState.fresh = false := rfl
    rw [List.map_cons, List.cons_append, awaitResult_cons_blocked _ _ _ _ _ h1]
    have hst : stepChan Chan.nil ChanState.fresh (Step.onError c) = ChanState.fresh := by
      simp only [stepChan]
      split <;> rfl
    rw [hst, ih]

theorem offered_head (run : VisitRun) :
    (offered run).head?
      = if (0 : Int) ∈ run.errorStatuses then some GoError.ErrContextTimeout else run.ret := by
  unfold offered
  by_cases h0 : (0 : Int) ∈ run.errorStatuses
  · have hmem : (0 : Int) ∈ run.errorStatuses.filter (fun c => decide (c = 0)) := by
      simp [List.mem_filter, h0]
    cases hf : run.errorStatuses.filter (fun c => decide (c = 0)) with
    | nil => rw [hf] at hmem; simp at hmem
    | cons a as => simp [h0]
  · have hf : run.errorStatuses.filter (fun c => decide (c = 0)) = [] := by
      rw [List.filter_eq_nil_iff]
      intro a ha h
      have : a = 0 := by simpa using h
      exact h0 (this ▸ ha)
    rw [hf]
    cases run.ret <;> simp [h0]

/-- C5: every traversal attempt returns exactly one outcome to the caller, the
first value offered to the capacity-one channel, whenever the receive is
scheduled: `ErrContextTimeout` when an error callback with status code zero
fired, otherwise the root `Visit` error when there is one, otherwise nil read
from the closed channel. -/
theorem scrapeLeafCateories_first_write (run : VisitRun) (delay : Nat) :
    scrapeLeafCateories run delay = some (offered run).head?
      ∧ ((0 : Int) ∈ run.errorStatuses →
          scrapeLeafCateories run delay = some (some GoError.ErrContextTimeout))
      ∧ ((0 : Int) ∉ run.errorStatuses → scrapeLeafCateories run delay = some run.ret) := by
  have key : scrapeLeafCateories run delay
      = some (if (0 : Int) ∈ run.errorStatuses then some GoError.ErrContextTimeout
          else run.ret) := by
    unfold scrapeLeafCateories goroutineSteps
    exact awaitResult_errChan _ _ _
  refine ⟨?_, ?_, ?_⟩
  · rw [key, offered_head]
  · intro h; rw [key, if_pos h]
  · intro h; rw [key, if_neg h]

theorem lineOutcome_eq (env : ProdEnv) (n : Nat) (url : String) :
    lineOutcome env n url = some (env.visit n url).ret := by
  unfold lineOutcome goroutineSteps
  exact awaitResult_nil _ _ _

/-! ## Retry controller of the category pass: proofs -/

theorem categoryRetryLoop_spec (attempt : Nat → Option GoError) (remaining i : Nat)
    (st : RetryState) :
    ∃ n, n ≤ remaining
      ∧ (categoryRetryLoop attempt remaining i st).attempts
          = st.attempts ++ (List.range n).map (fun k => attempt (i + k))
      ∧ (∀ k, k + 1 < n → isStalled (attempt (i + k)) = true)
      ∧ (n < remaining → 0 < n ∧ isStalled (attempt (i + (n - 1))) = false) := by
  induction remaining generalizing i st with
  | zero => exact ⟨0, le_refl _, by simp [categoryRetryLoop], by simp, by simp⟩
  | succ r ih =>
    cases ha : attempt i with
    | none =>
      refine ⟨1, by omega, ?_, ?_, ?_⟩
      · simp [categoryRetryLoop, ha, List.range_succ]
      · intro k hk; omega
      · intro _; simp [ha, isStalled]
    | some err =>
      by_cases hs : isContextTimeout err = true
      · obtain ⟨n, hn, hatt, hgo, hstop⟩ :=
          ih (i + 1) { attempts := st.attempts ++ [some err], lastErr := some err }
        refine ⟨n + 1, by omega, ?_, ?_, ?_⟩
        · simp only [categoryRetryLoop, ha, hs, if_true]
          rw [hatt, List.range_succ_eq_map]
          simp [ha, List.map_map, Function.comp_def, Nat.add_assoc, Nat.add_comm 1]
        · intro k hk
          cases k with
          | zero => simpa [ha, isStalled] using hs
          | succ k =>
            have := hgo k (by omega)
            rwa [show i + (k + 1) = i + 1 + k by omega]
        · intro hlt
          obtain ⟨hpos, hlast⟩ := hstop (by omega)
          refine ⟨by omega, ?_⟩
          rwa [show i + (n + 1 - 1) = i + 1 + (n - 1) by omega]
      · refine ⟨1, by omega, ?_, ?_, ?_⟩
        · simp [categoryRetryLoop, ha, hs, List.range_succ]
        · intro k hk; omega
        · intro _
          simp only [Bool.not_eq_true] at hs
          simp [ha, isStalled, hs]

/-! ## Product pass: reading lines -/

theorem takeWhile_append_stop {α : Type} (p : α → Bool) (l : List α) (a : α) (r : List α)
    (hl : ∀ x ∈ l, p x = true) (ha : p a = false) : (l ++ a :: r).takeWhile p = l := by
  induction l with
  | nil => simp [List.takeWhile_cons, ha]
  | cons x l ih =>
    have hx : p x = true := hl x (List.mem_cons_self _ _)
    simp only [List.cons_append, List.takeWhile_cons, hx, if_true]
    rw [ih (fun y hy => hl y (List.mem_cons_of_mem _ hy))]

theorem dropWhile_append_stop {α : Type} (p : α → Bool) (l : List α) (a : α) (r : List α)
    (hl : ∀ x ∈ l, p x = true) (ha : p a = false) : (l ++ a :: r).dropWhile p = a :: r := by
  induction l with
  | nil => simp [List.dropWhile_cons, ha]
  | cons x l ih =>
    have hx : p x = true := hl x (List.mem_cons_self _ _)
    simp only [List.cons_append, List.dropWhile_cons, hx, if_true]
    exact ih (fun y hy => hl y (List.mem_cons_of_mem _ hy))

theorem readBytes_line {unread line rest : List UInt8}
    (h : readBytes unread = (line, rest, false)) :
    unread = line ++ rest ∧ 0 < line.length ∧ splitFirst line = splitFirst unread
      ∧ line.count newline = 1 := by
  unfold readBytes at h
  cases hd : unread.dropWhile (fun b => b != newline) with
  | nil => rw [hd] at h; simp at h
  | cons x xs =>
    rw [hd] at h
    simp only [Prod.mk.injEq, and_true] at h
    obtain ⟨hline, hrest⟩ := h
    subst hrest
    have hx : x = newline := by
      have := List.head?_dropWhile_not (fun b => b != newline) unread
      rw [hd] at this
      simpa using this
    subst hx
    have hsplit : unread = unread.takeWhile (fun b => b != newline) ++ newline :: xs := by
      rw [← hd, List.takeWhile_append_dropWhile]
    have hall : ∀ y ∈ unread.takeWhile (fun b => b != newline), (y != newline) = true :=
      fun y hy => List.mem_takeWhile_imp (p := fun b => b != newline) hy
    have hcount : (unread.takeWhile (fun b => b != newline)).count newline = 0 := by
      rw [List.count_eq_zero]
      intro hmem
      simpa using hall _ hmem
    subst hline
    refine ⟨?_, by simp, ?_, ?_⟩
    · rw [List.append_assoc]; exact hsplit
    · unfold splitFirst
      exact takeWhile_append_stop _ _ newline [] hall (by simp)
    · rw [List.count_append, hcount]; simp

theorem readBytes_nil : readBytes [] = ([], [], true) := rfl

theorem readBytes_terminated (l rest : List UInt8) (hl : newline ∉ l) :
    readBytes (l ++ newline :: rest) = (l ++ [newline], rest, false) := by
  have hall : ∀ x ∈ l, (x != newline) = true := by
    intro x hx
    simp only [bne_iff_ne, ne_eq]
    intro hxe
    exact hl (hxe ▸ hx)
  unfold readBytes
  rw [dropWhile_append_stop _ l newline rest hall (by simp),
    takeWhile_append_stop _ l newline rest hall (by simp)]

theorem lineNo_mono (content : List UInt8) {p q : Nat} (h : p ≤ q) :
    lineNo content p ≤ lineNo content q := by
  unfold lineNo
  have := ((List.take_prefix_take_left content h).sublist).count_le newline
  omega

theorem lineNo_zero (content : List UInt8) : lineNo content 0 = 1 := by
  simp [lineNo]

/-- Reading one line at offset `p` moves to the start of the next line. -/
theorem lineNo_next (content : List UInt8) (p : Nat) (line rest : List UInt8)
    (hsplit : content.drop p = line ++ rest) (hcount : line.count newline = 1) :
    lineNo content (p + line.length) = lineNo content p + 1 := by
  unfold lineNo
  rw [List.take_add, hsplit, List.take_left, List.count_append, hcount]
  omega

/-! ## Product pass: the line-scanning loop -/

theorem lineIn_widen {content : List UInt8} {p p2 q : Nat} {d : Dispatch}
    (h : LineIn content p2 q d) (hp : p ≤ p2) : LineIn content p q d := by
  obtain ⟨h1, h2, h3, h4, h5, h6⟩ := h
  exact ⟨le_trans hp h1, h2, h3, le_trans (lineNo_mono content hp) h4, h5, h6⟩

theorem scanPost_done (content : List UInt8) (st : ProdState) (eof : Bool) (ds : List Dispatch)
    (hle : st.pos ≤ content.length) (hl : st.lineNum = lineNo content st.pos) :
    ScanPost content st.pos ds (some (st, eof, ds)) :=
  ⟨st, eof, [], by simp, le_refl _, hle, hl, by simp, List.Pairwise.nil⟩

theorem scanPost_widen {content : List UInt8} {p p2 : Nat} {ds : List Dispatch}
    {res : Option (ProdState × Bool × List Dispatch)} (h : ScanPost content p2 ds res)
    (hp : p ≤ p2) : ScanPost content p ds res := by
  obtain ⟨st, eof, new, hres, h1, h2, h3, h4, h5⟩ := h
  exact ⟨st, eof, new, hres, le_trans hp h1, h2, h3, fun d hd => lineIn_widen (h4 d hd) hp, h5⟩

theorem scanPost_cons {content : List UInt8} {p p2 : Nat} {ds : List Dispatch} {d : Dispatch}
    {res : Option (ProdState × Bool × List Dispatch)}
    (h : ScanPost content p2 (ds ++ [d]) res) (hp : p < p2) (hpos : d.pos = p)
    (hnum : d.lineNum = lineNo content p) (hlt : lineNo content p < lineNo content p2)
    (hurl : d.leafURL = splitFirst (content.drop p)) : ScanPost content p ds res := by
  obtain ⟨st, eof, new, hres, h1, h2, h3, h4, h5⟩ := h
  refine ⟨st, eof, d :: new, ?_, by omega, h2, h3, ?_, ?_⟩
  · rw [hres]; simp
  · intro x hx
    rcases List.mem_cons.1 hx with rfl | hx
    · refine ⟨by omega, by omega, by rw [hnum, hpos], by rw [hnum], ?_, by rw [hurl, hpos]⟩
      have := lineNo_mono content h1
      omega
    · exact lineIn_widen (h4 x hx) (le_of_lt hp)
  · rw [List.pairwise_cons]
    refine ⟨?_, h5⟩
    intro x hx
    obtain ⟨hx1, _, _, hx4, _, _⟩ := h4 x hx
    exact ⟨by omega, by omega⟩

theorem scanLines_spec (env : ProdEnv) (content : List UInt8) (i fuel : Nat)
    (unread : List UInt8) (st : ProdState) (ds : List Dispatch)
    (hun : unread = content.drop st.pos) (hle : st.pos ≤ content.length)
    (hl : st.lineNum = lineNo content st.pos) (hfuel : unread.length < fuel) :
    ScanPost content st.pos ds (scanLines env i fuel unread st ds) := by
  induction fuel generalizing unread st ds with
  | zero => omega
  | succ fuel ih =>
    rcases hrb : readBytes unread with ⟨line, rest, eof⟩
    cases eof with
    | true =>
      simp only [scanLines, hrb]
      exact scanPost_done content st true ds hle hl
    | false =>
      obtain ⟨hsplit, hpos, hurl, hcount⟩ := readBytes_line hrb
      have hdrop : content.drop st.pos = line ++ rest := by rw [← hun, hsplit]
      have hrest : rest = content.drop (st.pos + line.length) := by
        rw [← List.drop_drop, hdrop, List.drop_left]
      have hlen : st.pos + line.length ≤ content.length := by
        have := congrArg List.length hdrop
        rw [List.length_drop, List.length_append] at this
        omega
      have hnext := lineNo_next content st.pos line rest hdrop hcount
      have hfuel2 : rest.length < fuel := by
        rw [hsplit, List.length_append] at hfuel
        omega
      have hurl2 : splitFirst line = splitFirst (content.drop st.pos) := by rw [hurl, hun]
      simp only [scanLines, hrb]
      cases hparse : env.urlParse (splitFirst line) with
      | none =>
        simp only []
        exact scanPost_widen
          (ih rest (ProdState.mk (st.pos + line.length) (st.lineNum + 1) st.lastErr st.visits) ds
            hrest hlen (by simp only []; omega) hfuel2)
          (Nat.le_add_right _ _)
      | some u =>
        simp only [lineOutcome_eq]
        cases hret : (env.visit st.visits u).ret with
        | none =>
          simp only []
          exact scanPost_cons
            (ih rest (ProdState.mk (st.pos + line.length) (st.lineNum + 1) st.lastErr (st.visits + 1)) _
              hrest hlen (by simp only []; omega) hfuel2)
            (by simp only []; omega) rfl hl
              (show lineNo content st.pos < lineNo content (st.pos + line.length) by omega) hurl2
        | some err =>
          simp only []
          by_cases hs : isContextTimeout err = true
          · simp only [hs, if_true]
            exact scanPost_cons
              (scanPost_done content (ProdState.mk (st.pos + line.length) (st.lineNum + 1) st.lastErr (st.visits + 1)) false _ hlen
                (by simp only []; omega))
              (by simp only []; omega) rfl hl
              (show lineNo content st.pos < lineNo content (st.pos + line.length) by omega) hurl2
          · simp only [hs, Bool.false_eq_true, if_false]
            exact scanPost_cons
              (ih rest (ProdState.mk (st.pos + line.length) (st.lineNum + 1) (some err) (st.visits + 1)) _
                hrest hlen (by simp only []; omega) hfuel2)
              (by simp only []; omega) rfl hl
              (show lineNo content st.pos < lineNo content (st.pos + line.length) by omega) hurl2

/-! ## Product pass: the retry loop -/

theorem logInv_init (content : List UInt8) : LogInv content ⟨0, 1, none, 0⟩ [] := by
  refine ⟨Nat.zero_le _, (lineNo_zero content).symm, ?_, List.chain'_nil, ?_, ?_, ?_⟩
  · intro a ha; simp at ha
  · intro a ha; simp at ha
  · simp
  · intro d hd; simp at hd

theorem logInv_step {content : List UInt8} {st st1 : ProdState} {log : List AttemptLog}
    {eof : Bool} {new : List Dispatch} (hinv : LogInv content st log)
    (h1 : st.pos ≤ st1.pos) (h2 : st1.pos ≤ content.length)
    (h3 : st1.lineNum = lineNo content st1.pos)
    (h4 : ∀ d ∈ new, LineIn content st.pos st1.pos d) (h5 : new.Pairwise Before) :
    LogInv content st1 (log ++ [⟨st.pos, st1.pos, eof, new⟩]) := by
  obtain ⟨_, il, iall, ichain, ilast, ipw, ibelow⟩ := hinv
  have hmono := lineNo_mono content h1
  refine ⟨h2, h3, ?_, ?_, ?_, ?_, ?_⟩
  · intro a ha
    rcases List.mem_append.1 ha with ha | ha
    · exact iall a ha
    · rw [List.mem_singleton] at ha
      subst ha
      exact ⟨h1, h4⟩
  · refine List.Chain'.append ichain (List.chain'_singleton _) ?_
    intro x hx y hy
    simp only [List.head?_cons, Option.mem_def, Option.some.injEq] at hy
    subst hy
    refine ⟨(ilast x hx).symm, ?_⟩
    intro d hd
    obtain ⟨d1, _, _, d4, _, _⟩ := h4 d hd
    rw [ilast x hx]
    refine ⟨d1, ?_⟩
    unfold lineNo at d4
    omega
  · intro a ha
    rw [List.getLast?_concat] at ha
    simp only [Option.mem_def, Option.some.injEq] at ha
    subst ha
    rfl
  · rw [List.flatMap_append, List.pairwise_append]
    refine ⟨ipw, by simpa [List.flatMap_cons] using h5, ?_⟩
    intro d hd d2 hd2
    have hd2new : d2 ∈ new := by simpa [List.flatMap_cons] using hd2
    obtain ⟨e1, _, _, e4, _, _⟩ := h4 d2 hd2new
    obtain ⟨b1, b2⟩ := ibelow d hd
    exact ⟨by omega, by omega⟩
  · intro d hd
    rw [List.flatMap_append, List.mem_append] at hd
    rcases hd with hd | hd
    · obtain ⟨b1, b2⟩ := ibelow d hd
      exact ⟨by omega, by omega⟩
    · have hdnew : d ∈ new := by simpa [List.flatMap_cons] using hd
      obtain ⟨_, e2, _, _, e5, _⟩ := h4 d hdnew
      exact ⟨e2, by omega⟩

theorem productRetryLoop_spec (env : ProdEnv) (content : List UInt8) (remaining i : Nat)
    (st : ProdState) (log : List AttemptLog) (hinv : LogInv content st log) :
    ∃ st2 log2, productRetryLoop env content remaining i st log = some (st2, log2)
      ∧ LogInv content st2 log2 ∧ log2.length = log.length + remaining := by
  induction remaining generalizing i st log with
  | zero => exact ⟨st, log, rfl, hinv, rfl⟩
  | succ r ih =>
    obtain ⟨st1, eof, new, hres, h1, h2, h3, h4, h5⟩ :=
      scanLines_spec env content i ((content.drop st.pos).length + 1) (content.drop st.pos) st []
        rfl hinv.1 hinv.2.1 (Nat.lt_succ_self _)
    rw [List.nil_append] at hres
    obtain ⟨st2, log2, hrun, hinv2, hlen⟩ :=
      ih (i + 1) st1 (log ++ [⟨st.pos, st1.pos, eof, new⟩]) (logInv_step hinv h1 h2 h3 h4 h5)
    refine ⟨st2, log2, ?_, hinv2, ?_⟩
    · simp only [productRetryLoop, hres]
      exact hrun
    · rw [hlen, List.length_append, List.length_singleton]
      omega

theorem runProductsScrape_total (cfg : Config) (env : ProdEnv) (createErr openErr : Option GoError)
    (content : List UInt8) :
    ∃ p, runProductsScrape cfg env createErr openErr content = some p := by
  cases createErr with
  | some e => exact ⟨_, rfl⟩
  | none =>
    cases openErr with
    | some e => exact ⟨_, rfl⟩
    | none =>
      obtain ⟨st2, log2, hrun, _, _⟩ := productRetryLoop_spec env content
        cfg.MaxRetriesProducts.toNat 0 ⟨0, 1, none, 0⟩ [] (logInv_init content)
      exact ⟨⟨log2, st2.lastErr, none⟩, by simp only [runProductsScrape, hrun]⟩

/-- C3: the product pass returns, and in its log every iteration of the retry
loop seeks to the byte offset the previous one reached and dispatches no visit
for a line before that offset (`Resumes`); every visit is for the line of the
file that starts at its recorded offset, inside the range its iteration read;
hence over the whole pass each visit is for a later line than the one before:
no line is dispatched twice. -/
theorem runProductsScrape_resume (cfg : Config) (env : ProdEnv) (content : List UInt8) :
    ∃ r, runProductsScrape cfg env none none content = some r
      ∧ r.attempts.length = cfg.MaxRetriesProducts.toNat
      ∧ r.attempts.Chain' (Resumes content)
      ∧ (∀ a ∈ r.attempts, a.seek ≤ a.finish
          ∧ ∀ d ∈ a.dispatched, LineIn content a.seek a.finish d)
      ∧ r.dispatched.Pairwise Before := by
  obtain ⟨st2, log2, hrun, hinv, hlen⟩ := productRetryLoop_spec env content
    cfg.MaxRetriesProducts.toNat 0 ⟨0, 1, none, 0⟩ [] (logInv_init content)
  obtain ⟨_, _, iall, ichain, _, ipw, _⟩ := hinv
  refine ⟨⟨log2, st2.lastErr, none⟩, by simp only [runProductsScrape, hrun], ?_, ichain, iall, ipw⟩
  simpa using hlen

/-! ## Product pass: a file of terminated lines without stalls -/

theorem splitFirst_terminated (l : List UInt8) (hl : newline ∉ l) :
    splitFirst (l ++ [newline]) = l := by
  unfold splitFirst
  refine takeWhile_append_stop _ l newline [] ?_ (by simp)
  intro x hx
  simp only [bne_iff_ne, ne_eq]
  intro hxe
  exact hl (hxe ▸ hx)

theorem scanLines_terminated (env : ProdEnv) (i : Nat) (lines : List (List UInt8))
    (hlines : ∀ l ∈ lines, newline ∉ l) (hparse : ∀ l ∈ lines, (env.urlParse l).isSome = true)
    (hns : ∀ n u e, lineOutcome env n u = some (some e) → isContextTimeout e = false)
    (fuel : Nat) (st : ProdState) (ds : List Dispatch) (hfuel : lines.length < fuel) :
    ∃ st2 new, scanLines env i fuel (lines.flatMap (fun l => l ++ [newline])) st ds
        = some (st2, true, ds ++ new)
      ∧ st2.pos = st.pos + (lines.flatMap (fun l => l ++ [newline])).length
      ∧ new.map Dispatch.leafURL = lines
      ∧ new.map (fun d => some d.url) = lines.map env.urlParse
      ∧ new.map Dispatch.lineNum = List.range' st.lineNum lines.length
      ∧ (∀ d ∈ new, d.attempt = i) := by
  induction lines generalizing fuel st ds with
  | nil =>
    cases fuel with
    | zero => simp at hfuel
    | succ fuel =>
      refine ⟨st, [], ?_, by simp, rfl, rfl, rfl, by simp⟩
      simp [scanLines, readBytes_nil]
  | cons l ls ih =>
    cases fuel with
    | zero => simp at hfuel
    | succ fuel =>
      have hl : newline ∉ l := hlines l (List.mem_cons_self _ _)
      have hls : ∀ x ∈ ls, newline ∉ x := fun x hx => hlines x (List.mem_cons_of_mem _ hx)
      have hps : ∀ x ∈ ls, (env.urlParse x).isSome = true :=
        fun x hx => hparse x (List.mem_cons_of_mem _ hx)
      have hfuel2 : ls.length < fuel := by
        simp only [List.length_cons] at hfuel; omega
      obtain ⟨u, hu⟩ := Option.isSome_iff_exists.1 (hparse l (List.mem_cons_self _ _))
      have hread : readBytes ((l :: ls).flatMap (fun l => l ++ [newline]))
          = (l ++ [newline], ls.flatMap (fun l => l ++ [newline]), false) := by
        rw [List.flatMap_cons, List.append_assoc, List.singleton_append]
        exact readBytes_terminated l _ hl
      have hout := lineOutcome_eq env st.visits u
      have step : ∀ st2 : ProdState, st2.pos = st.pos + (l ++ [newline]).length →
          st2.lineNum = st.lineNum + 1 →
          scanLines env i (fuel + 1) ((l :: ls).flatMap (fun l => l ++ [newline])) st ds
            = scanLines env i fuel (ls.flatMap (fun l => l ++ [newline])) st2
                (ds ++ [⟨i, st.lineNum, st.pos, l, u, (env.visit st.visits u).ret⟩]) →
          ∃ st3 new, scanLines env i (fuel + 1) ((l :: ls).flatMap (fun l => l ++ [newline])) st ds
              = some (st3, true, ds ++ new)
            ∧ st3.pos = st.pos + ((l :: ls).flatMap (fun l => l ++ [newline])).length
            ∧ new.map Dispatch.leafURL = l :: ls
            ∧ new.map (fun d => some d.url) = (l :: ls).map env.urlParse
            ∧ new.map Dispatch.lineNum = List.range' st.lineNum (l :: ls).length
            ∧ (∀ d ∈ new, d.attempt = i) := by
        intro st2 hpos hnum heq
        obtain ⟨st3, new, hrun, h1, h2, h3, h4, h5⟩ := ih hls hps fuel st2
          (ds ++ [⟨i, st.lineNum, st.pos, l, u, (env.visit st.visits u).ret⟩]) hfuel2
        refine ⟨st3, ⟨i, st.lineNum, st.pos, l, u, (env.visit st.visits u).ret⟩ :: new,
          ?_, ?_, ?_, ?_, ?_, ?_⟩
        · rw [heq, hrun]; simp
        · rw [h1, hpos]
          simp only [List.flatMap_cons, List.length_append]
          omega
        · simp [h2]
        · simp [h3, hu]
        · simp [h4, hnum, List.range'_succ]
        · intro d hd
          rcases List.mem_cons.1 hd with rfl | hd
          · rfl
          · exact h5 d hd
      cases hret : (env.visit st.visits u).ret with
      | none =>
        rw [hret] at step
        refine step ⟨st.pos + (l ++ [newline]).length, st.lineNum + 1, st.lastErr, st.visits + 1⟩
          rfl rfl ?_
        simp only [scanLines, hread, splitFirst_terminated l hl, hu, hout, hret]
      | some err =>
        rw [hret] at step hout
        have hnot : isContextTimeout err = false := hns st.visits u err hout
        refine step ⟨st.pos + (l ++ [newline]).length, st.lineNum + 1, some err, st.visits + 1⟩
          rfl rfl ?_
        simp only [scanLines, hread, splitFirst_terminated l hl, hu, hout, hnot,
          Bool.false_eq_true, if_false]

theorem productRetryLoop_at_eof (env : ProdEnv) (content : List UInt8) (remaining i : Nat)
    (st : ProdState) (log : List AttemptLog) (hpos : st.pos = content.length) :
    productRetryLoop env content remaining i st log
      = some (st, log ++ List.replicate remaining ⟨content.length, content.length, true, []⟩) := by
  induction remaining generalizing i log with
  | zero => simp [productRetryLoop]
  | succ r ih =>
    have hdrop : content.drop st.pos = [] := by rw [hpos, List.drop_length]
    simp only [productRetryLoop, hdrop, List.length_nil, Nat.zero_add, scanLines, readBytes_nil]
    rw [ih, hpos, List.replicate_succ, List.append_assoc, List.singleton_append]

theorem length_le_flatMap_terminated (lines : List (List UInt8)) :
    lines.length ≤ (lines.flatMap (fun l => l ++ [newline])).length := by
  induction lines with
  | nil => simp
  | cons l ls ih =>
    rw [List.flatMap_cons, List.length_append, List.length_append]
    simp only [List.length_cons, List.length_nil]
    omega

/-- Under the schedules in which every goroutine finishes before the driver
moves on (`scanLines`): on an LF-terminated file whose `n` lines all parse, with
at least one attempt allowed and no stalled visit, the first iteration dispatches
the `n` lines in file order and ends on end-of-file, and every later iteration
seeks to the end offset and dispatches nothing. -/
theorem runProductsScrape_terminated (cfg : Config) (env : ProdEnv) (lines : List (List UInt8))
    (hlines : ∀ l ∈ lines, newline ∉ l) (hparse : ∀ l ∈ lines, (env.urlParse l).isSome = true)
    (hmax : 1 ≤ cfg.MaxRetriesProducts)
    (hns : ∀ n u e, lineOutcome env n u = some (some e) → isContextTimeout e = false) :
    ∃ r first, runProductsScrape cfg env none none (lines.flatMap (fun l => l ++ [newline]))
        = some r
      ∧ r.attempts = first :: List.replicate (cfg.MaxRetriesProducts.toNat - 1)
          ⟨(lines.flatMap (fun l => l ++ [newline])).length,
            (lines.flatMap (fun l => l ++ [newline])).length, true, []⟩
      ∧ first.seek = 0 ∧ first.finish = (lines.flatMap (fun l => l ++ [newline])).length
      ∧ first.eof = true
      ∧ first.dispatched.map Dispatch.leafURL = lines
      ∧ first.dispatched.map (fun d => some d.url) = lines.map env.urlParse
      ∧ first.dispatched.map Dispatch.lineNum = List.range' 1 lines.length
      ∧ r.dispatched.length = lines.length := by
  obtain ⟨m, hm⟩ : ∃ m, cfg.MaxRetriesProducts.toNat = m + 1 :=
    ⟨cfg.MaxRetriesProducts.toNat - 1, by omega⟩
  obtain ⟨st2, new, hscan, h1, h2, h3, h4, _⟩ :=
    scanLines_terminated env 0 lines hlines hparse hns
      ((lines.flatMap (fun l => l ++ [newline])).length + 1) ⟨0, 1, none, 0⟩ []
      (Nat.lt_succ_of_le (length_le_flatMap_terminated lines))
  simp only [List.nil_append, Nat.zero_add] at hscan h1
  have hloop : productRetryLoop env (lines.flatMap (fun l => l ++ [newline])) (m + 1) 0
      ⟨0, 1, none, 0⟩ []
      = some (st2, [⟨0, st2.pos, true, new⟩] ++ List.replicate m
          ⟨(lines.flatMap (fun l => l ++ [newline])).length,
            (lines.flatMap (fun l => l ++ [newline])).length, true, []⟩) := by
    simp only [productRetryLoop, List.drop_zero, hscan, List.nil_append]
    exact productRetryLoop_at_eof env _ m 1 st2 _ h1
  refine ⟨⟨[⟨0, st2.pos, true, new⟩] ++ List.replicate m
      ⟨(lines.flatMap (fun l => l ++ [newline])).length,
        (lines.flatMap (fun l => l ++ [newline])).length, true, []⟩, st2.lastErr, none⟩,
    ⟨0, st2.pos, true, new⟩, ?_, ?_, rfl, h1, rfl, h2, h3, h4, ?_⟩
  · simp only [runProductsScrape, hm, hloop]
  · simp [hm]
  · have hflat : ∀ k : Nat, (List.replicate k
        (⟨(lines.flatMap (fun l => l ++ [newline])).length,
          (lines.flatMap (fun l => l ++ [newline])).length, true, []⟩ : AttemptLog)).flatMap
          AttemptLog.dispatched = [] := by
      intro k
      induction k with
      | zero => rfl
      | succ k ihk => rw [List.replicate_succ, List.flatMap_cons, ihk]; rfl
    simp only [ProductsResult.dispatched, List.singleton_append, List.flatMap_cons, hflat,
      List.append_nil]
    rw [← List.length_map new Dispatch.leafURL, h2]

/-! ## Retry controller and entry point: theorems -/

/-- C2: when the target URL parses and the checkpoint file is created, the retry
loop runs the attempts in order (attempt number `k + 1` is the `k`-th call); no
attempt has a number above `MaxRetriesCategories`; an attempt is followed by
another one only when its outcome is a stall; the first attempt whose outcome is
success or a non-stall error is the last; a stalled attempt is followed by the
next one as long as attempts remain; and attempt 1 runs as soon as
`MaxRetriesCategories` is positive. -/
theorem runCategoryScrape_retry (cfg : Config) (attempt : Nat → Option GoError) :
    (runCategoryScrape cfg none none attempt).attempts
        = (List.range (runCategoryScrape cfg none none attempt).attempts.length).map attempt
      ∧ (∀ k, k < (runCategoryScrape cfg none none attempt).attempts.length →
          (k : Int) + 1 ≤ cfg.MaxRetriesCategories)
      ∧ (runCategoryScrape cfg none none attempt).attempts.length
          ≤ cfg.MaxRetriesCategories.toNat
      ∧ (∀ k, k + 1 < (runCategoryScrape cfg none none attempt).attempts.length →
          isStalled (attempt k) = true)
      ∧ (∀ k, k < (runCategoryScrape cfg none none attempt).attempts.length →
          isStalled (attempt k) = false →
          (runCategoryScrape cfg none none attempt).attempts.length = k + 1)
      ∧ (∀ k, k < (runCategoryScrape cfg none none attempt).attempts.length →
          isStalled (attempt k) = true → (k : Int) + 1 < cfg.MaxRetriesCategories →
          k + 1 < (runCategoryScrape cfg none none attempt).attempts.length)
      ∧ (0 < cfg.MaxRetriesCategories →
          0 < (runCategoryScrape cfg none none attempt).attempts.length) := by
  obtain ⟨n, hn, hatt, hgo, hstop⟩ :=
    categoryRetryLoop_spec attempt cfg.MaxRetriesCategories.toNat 0 ⟨[], none⟩
  have hattempts : (runCategoryScrape cfg none none attempt).attempts
      = (List.range n).map attempt := by
    simp only [runCategoryScrape]
    rw [hatt]
    simp
  have hlen : (runCategoryScrape cfg none none attempt).attempts.length = n := by
    rw [hattempts]; simp
  rw [hlen]
  refine ⟨hattempts, ?_, hn, ?_, ?_, ?_, ?_⟩
  · intro k hk; omega
  · intro k hk
    simpa using hgo k hk
  · intro k hk hns
    by_contra hne
    have := hgo k (by omega)
    simp only [Nat.zero_add] at this
    rw [this] at hns
    exact Bool.noConfusion hns
  · intro k hk hs hmore
    by_contra hnot
    have hkn : n = k + 1 := by omega
    obtain ⟨_, hlast⟩ := hstop (by omega)
    rw [hkn] at hlast
    simp only [Nat.zero_add, Nat.add_sub_cancel] at hlast
    rw [hlast] at hs
    exact Bool.noConfusion hs
  · intro hmax
    by_contra hzero
    have hn0 : n = 0 := by omega
    have := (hstop (by omega)).1
    omega

/-- Witness of C2 (scenario C): with three attempts allowed, a stall on attempt 1
and success on attempt 2, exactly two attempts are made. -/
theorem runCategoryScrape_retry_witness :
    (runCategoryScrape defaultConfig none none stallThenSuccess).attempts
        = [some GoError.ErrContextTimeout, none]
      ∧ (runCategoryScrape defaultConfig none none stallThenSuccess).attempts.length = 2
      ∧ (runCategoryScrape defaultConfig none none stallThenSuccess).attempts.length
          ≤ defaultConfig.MaxRetriesCategories.toNat
      ∧ 0 < (runCategoryScrape defaultConfig none none stallThenSuccess).attempts.length := by
  refine ⟨by decide, by decide, ?_, ?_⟩
  · exact (runCategoryScrape_retry defaultConfig stallThenSuccess).2.2.1
  · exact (runCategoryScrape_retry defaultConfig stallThenSuccess).2.2.2.2.2.2 (by decide)

/-- C9: when the target URL parses and the checkpoint file is created,
`runCategoryScrape` returns nil whatever the attempts' outcomes are, and `Run`
goes on to call `runProductsScrape` and returns its result. -/
theorem Run_starts_product_pass (cfg : Config) (attempt : Nat → Option GoError) (env : ProdEnv)
    (createOutErr openErr : Option GoError) (content : List UInt8) :
    (runCategoryScrape cfg none none attempt).ret = none
      ∧ ∃ r p, Run cfg none none attempt env createOutErr openErr content = some r
          ∧ runProductsScrape cfg env createOutErr openErr content = some p
          ∧ r.products = some p ∧ r.ret = p.ret
          ∧ (cfg.SkipCategoryScraping = false →
              r.category = some (runCategoryScrape cfg none none attempt)) := by
  have hret : (runCategoryScrape cfg none none attempt).ret = none := rfl
  refine ⟨hret, ?_⟩
  obtain ⟨p, hp⟩ := runProductsScrape_total cfg env createOutErr openErr content
  cases hskip : cfg.SkipCategoryScraping with
  | true =>
    refine ⟨⟨none, some p, p.ret⟩, p, ?_, hp, rfl, rfl, ?_⟩
    · simp only [Run, hskip, hp]; rfl
    · intro h; exact Bool.noConfusion h
  | false =>
    refine ⟨⟨some (runCategoryScrape cfg none none attempt), some p, p.ret⟩, p, ?_, hp, rfl, rfl,
      fun _ => rfl⟩
    simp only [Run, hskip, hret, hp]; rfl

/-! ## Statements about concrete runs -/

/-- Witness of C7: the carousel page is not the root page and is classified
branch although it carries a product carousel titled "Best Selling". -/
theorem isLeafCategoryPage_false_of_not_root_witness :
    carouselPage.url ≠ defaultConfig.TargetURL
      ∧ isLeafCategoryPage defaultConfig carouselPage = false :=
  ⟨by decide, isLeafCategoryPage_false_of_not_root defaultConfig carouselPage (by decide)⟩

/-- Counterexample to C8 as stated: the root page with one matched module whose
title is empty has a module whose title is not "Shop by Category", yet it is
classified branch. -/
theorem isLeafCategoryPage_untitled_module :
    ¬ (isLeafCategoryPage defaultConfig untitledModulePage = true ↔
        (untitledModulePage.url = defaultConfig.TargetURL
          ∧ ∃ sel ∈ selectors, ∃ g ∈ untitledModulePage.ForEach sel,
              g.ChildText "h2.section-title__title" ≠ "Shop by Category")) := by
  intro h
  have hfalse : isLeafCategoryPage defaultConfig untitledModulePage = false := by decide
  have htrue : isLeafCategoryPage defaultConfig untitledModulePage = true := by
    refine h.2 ⟨by decide, "section.b-module.b-visualnav:first-of-type", by decide,
      ⟨fun _ => "", fun _ => []⟩, ?_, by decide⟩
    simp [untitledModulePage]
  rw [hfalse] at htrue
  exact Bool.noConfusion htrue

/-- Witness of C1 (scenario B): six candidate anchors per layout and cap 5 give
6 + 6 = 12 calls of `c.Visit`; the "See all" link of layout 1 is passed over and
the calls whose `Visit` returns an error are counted. -/
theorem collectLeafCategoryURLs_branch_visits_witness :
    isLeafCategoryPage defaultConfig twoSectionPage = false
      ∧ 0 ≤ defaultConfig.MaxCategoriesPerPage
      ∧ (collectLeafCategoryURLs defaultConfig (fun _ => none) visitFailingOnce
          twoSectionPage).visited
        = ["/b/1", "/b/2", "/b/3", "/b/4", "/b/5", "/b/6",
           "/b/1", "/b/2", "/b/3", "/b/4", "/b/5", "/b/6"]
      ∧ (collectLeafCategoryURLs defaultConfig (fun _ => none) visitFailingOnce
          twoSectionPage).visited.length = 12 := by
  have h := collectLeafCategoryURLs_branch_visits defaultConfig (fun _ => none) visitFailingOnce
    twoSectionPage (by decide) (by decide)
  refine ⟨by decide, by decide, ?_, ?_⟩
  · rw [h.1]; decide
  · rw [h.1]; decide

/-- C4 (the code at the failing input): the first visit fires the error callback
with status code zero and returns its error; the driver of the product pass
receives that error, not `ErrContextTimeout`, and goes on to dispatch line 2 in
the same iteration, while the driver of the category pass receives
`ErrContextTimeout` for the very same visit. -/
theorem runProductsScrape_stall_not_reported :
    (runProductsScrape defaultConfig firstVisitTimesOut none none
        (twoLines.flatMap (fun l => l ++ [newline]))).map
        (fun r => r.attempts.map
          (fun a => a.dispatched.map (fun d => (d.lineNum, d.outcome))))
      = some [[(1, some (GoError.other "context deadline exceeded")), (2, none)], [], []]
    ∧ lineOutcome firstVisitTimesOut 0 "https://www.ebay.com/b/1"
      = some (some (GoError.other "context deadline exceeded"))
    ∧ scrapeLeafCateories (firstVisitTimesOut.visit 0 "https://www.ebay.com/b/1") 0
      = some (some GoError.ErrContextTimeout) := by
  refine ⟨by decide, by decide, by decide⟩


/-! ## Product pass under an arbitrary schedule: no line is dispatched twice -/

theorem raceInv_init (cfg : Config) (content : List UInt8) :
    RaceInv content (raceInit cfg content) := by
  unfold raceInit
  split
  · exact ⟨Nat.zero_le _, rfl, (lineNo_zero content).symm, List.Pairwise.nil,
      fun d hd => by simp at hd⟩
  · exact ⟨Nat.zero_le _, rfl, (lineNo_zero content).symm, List.Pairwise.nil,
      fun d hd => by simp at hd⟩

theorem raceInv_of_eq {content : List UInt8} {s s2 : RaceState} (h : RaceInv content s)
    (hv : s2.vars.pos = s.vars.pos) (hl : s2.vars.lineNum = s.vars.lineNum)
    (hu : s2.unread = s.unread) (hs : s2.spawned = s.spawned) : RaceInv content s2 := by
  unfold RaceInv
  rw [hv, hl, hu, hs]
  exact h

theorem endAttempt_inv (cfg : Config) (content : List UInt8) (s : RaceState)
    (h : RaceInv content s) : RaceInv content (endAttempt cfg content s) := by
  unfold endAttempt
  split
  · exact raceInv_of_eq h rfl rfl h.2.1.symm rfl
  · exact raceInv_of_eq h rfl rfl rfl rfl

theorem goroutineStep_inv (env : ProdEnv) (content : List UInt8) (k : Nat) (s : RaceState)
    (h : RaceInv content s) : RaceInv content (goroutineStep env k s) := by
  unfold goroutineStep
  repeat' split
  all_goals exact raceInv_of_eq h rfl rfl rfl rfl

theorem driverStep_inv (cfg : Config) (env : ProdEnv) (content : List UInt8) (s : RaceState)
    (h : RaceInv content s) : RaceInv content (driverStep cfg env content s) := by
  obtain ⟨hle, hun, hl, hpw, hall⟩ := h
  have h0 : RaceInv content s := ⟨hle, hun, hl, hpw, hall⟩
  cases hd : s.driver with
  | returned => simp only [driverStep, hd]; exact h0
  | receiving ch =>
    simp only [driverStep, hd]
    repeat' split
    all_goals first
      | exact h0
      | exact raceInv_of_eq h0 rfl rfl rfl rfl
      | exact endAttempt_inv cfg content _ (raceInv_of_eq h0 rfl rfl rfl rfl)
  | top =>
    rcases hrb : readBytes s.unread with ⟨line, rest, eof⟩
    cases eof with
    | true =>
      simp only [driverStep, hd, hrb]
      exact endAttempt_inv cfg content _ (raceInv_of_eq h0 rfl rfl rfl rfl)
    | false =>
      obtain ⟨hsplit, hpos, hurl, hcount⟩ := readBytes_line hrb
      have hdrop : content.drop s.vars.pos = line ++ rest := by rw [← hun, hsplit]
      have hrest : rest = content.drop (s.vars.pos + line.length) := by
        rw [← List.drop_drop, hdrop, List.drop_left]
      have hlen : s.vars.pos + line.length ≤ content.length := by
        have := congrArg List.length hdrop
        rw [List.length_drop, List.length_append] at this
        omega
      have hnext := lineNo_next content s.vars.pos line rest hdrop hcount
      have hold : ∀ d ∈ s.spawned, d.pos < s.vars.pos + line.length
          ∧ d.lineNum < s.vars.lineNum + 1
          ∧ d.lineNum = lineNo content d.pos ∧ d.leafURL = splitFirst (content.drop d.pos) := by
        intro d hd
        obtain ⟨a1, a2, a3, a4⟩ := hall d hd
        exact ⟨by omega, by omega, a3, a4⟩
      simp only [driverStep, hd, hrb]
      cases hparse : env.urlParse (splitFirst line) with
      | none =>
        exact ⟨hlen, hrest, by simp only []; omega, hpw, hold⟩
      | some u =>
        refine ⟨hlen, hrest, by simp only []; omega, ?_, ?_⟩
        · simp only []
          rw [List.pairwise_append]
          refine ⟨hpw, List.pairwise_singleton _ _, ?_⟩
          intro d hd d2 hd2
          rw [List.mem_singleton] at hd2
          subst hd2
          obtain ⟨a1, a2, _, _⟩ := hall d hd
          exact ⟨a1, a2⟩
        · intro d hd
          simp only [] at hd
          rcases List.mem_append.1 hd with hd | hd
          · exact hold d hd
          · rw [List.mem_singleton] at hd
            subst hd
            refine ⟨by simp only []; omega, by simp only []; omega, hl, ?_⟩
            simp only []
            rw [hurl, hun]

theorem raceStep_inv (cfg : Config) (env : ProdEnv) (content : List UInt8) (s : RaceState)
    (t : Nat) (h : RaceInv content s) : RaceInv content (raceStep cfg env content s t) := by
  unfold raceStep
  split
  · exact h
  · split
    · exact h
    · cases t with
      | zero => exact driverStep_inv cfg env content s h
      | succ k => exact goroutineStep_inv env content k s h

/-- Under every schedule the goroutines started by the product pass are for
distinct lines of the file, in file order, each for the line that starts at its
recorded offset. -/
theorem runProductsScrapeScheduled_inv (cfg : Config) (env : ProdEnv) (content : List UInt8)
    (schedule : List Nat) :
    RaceInv content (runProductsScrapeScheduled cfg env content schedule) := by
  unfold runProductsScrapeScheduled
  have gen : ∀ (sched : List Nat) (s : RaceState), RaceInv content s →
      RaceInv content (sched.foldl (raceStep cfg env content) s) := by
    intro sched
    induction sched with
    | nil => intro s hs; exact hs
    | cons t ts ih => intro s hs; exact ih _ (raceStep_inv cfg env content s t hs)
  exact gen schedule _ (raceInv_init cfg content)

/-- C6 (the code at the failing input): a file of three lines, the first visit
returns an HTTP error that is not a stall, the others succeed.  When every
goroutine finishes before the driver moves on, the pass returns after three
visits, one per line.  When the first goroutine runs `close(errChan)` after the
driver has assigned the variable for line 2, it closes the channel of line 2,
the second goroutine closes it again and panics: the process ends after two
visits and line 3 is never dispatched. -/
theorem runProductsScrapeScheduled_late_close_panics :
    threeLines.length = 3
      ∧ (∀ n u e, (firstVisitNotFound.visit n u).ret = some e → isContextTimeout e = false)
      ∧ (runProductsScrapeScheduled defaultConfig firstVisitNotFound
          (threeLines.flatMap (fun l => l ++ [newline])) inOrderSchedule).panicked = false
      ∧ (runProductsScrapeScheduled defaultConfig firstVisitNotFound
          (threeLines.flatMap (fun l => l ++ [newline])) inOrderSchedule).driver
        = DriverPhase.returned
      ∧ (runProductsScrapeScheduled defaultConfig firstVisitNotFound
          (threeLines.flatMap (fun l => l ++ [newline])) inOrderSchedule).spawned.map
          Spawned.lineNum = [1, 2, 3]
      ∧ (runProductsScrapeScheduled defaultConfig firstVisitNotFound
          (threeLines.flatMap (fun l => l ++ [newline])) lateCloseSchedule).panicked = true
      ∧ (runProductsScrapeScheduled defaultConfig firstVisitNotFound
          (threeLines.flatMap (fun l => l ++ [newline])) lateCloseSchedule).spawned.map
          Spawned.lineNum = [1, 2] := by
  refine ⟨by decide, ?_, by decide, by decide, by decide, by decide, by decide⟩
  intro n u e h
  simp only [firstVisitNotFound] at h
  split at h
  · simp only [Option.some.injEq] at h
    subst h
    rfl
  · simp at h

/-! ## The sequential runs are runs under a schedule -/

theorem endAttempt_ended (cfg : Config) (content : List UInt8) (s : RaceState) (i : Nat)
    (st : ProdState) (sp : List Spawned) (hp : s.panicked = false)
    (hdone : ∀ g ∈ s.goroutines, g.phase = GoPhase.done)
    (hlen : s.errChanVars.length = i + 1) (hi : s.i = i) (hv : s.vars = st)
    (hs : s.spawned = sp) : AttemptEnded cfg content (endAttempt cfg content s) i st sp := by
  unfold AttemptEnded endAttempt
  rw [hi]
  by_cases hmore : (i : Int) + 1 < cfg.MaxRetriesProducts
  · rw [if_pos hmore, if_pos hmore]
    refine ⟨hp, rfl, hdone, ?_, ?_, ?_, hv, hs⟩
    · show (s.errChanVars ++ [none]).length = i + 1 + 1
      rw [List.length_append, List.length_singleton, hlen]
    · rfl
    · show content.drop s.vars.pos = content.drop st.pos
      rw [hv]
  · rw [if_neg hmore, if_neg hmore]
    exact ⟨hp, rfl, hv, hs⟩

/-- A goroutine just started, whose `Visit` returns nil, runs to its end in two
steps and closes the channel the driver waits on. -/
theorem goroutine_runs_nil (cfg : Config) (env : ProdEnv) (content : List UInt8)
    (chans : List ChanState) (ev : List (Option Nat)) (pre : List Goroutine) (a n ch i : Nat)
    (u : String) (unread : List UInt8) (st : ProdState) (sp : List Spawned)
    (hvar : (ev.get? a).join = some ch) (hch : chans.get? ch = some ChanState.fresh)
    (hret : (env.visit n u).ret = none) :
    [pre.length + 1, pre.length + 1].foldl (raceStep cfg env content)
        ⟨chans, ev, pre ++ [⟨a, GoPhase.visiting n u⟩], DriverPhase.receiving ch, i, unread, st,
          sp, false⟩
      = ⟨chans.set ch ⟨none, true⟩, ev, pre ++ [⟨a, GoPhase.done⟩], DriverPhase.receiving ch, i,
          unread, st, sp, false⟩ := by
  have hlt : ch < chans.length := by
    rw [List.get?_eq_some] at hch; exact hch.1
  have hvar2 : (ev[a]?.bind fun x => x) = some ch := by
    simpa [Option.join] using hvar
  have hch2 : chans[ch]? = some ChanState.fresh := by
    simpa using hch
  simp [List.foldl, raceStep, goroutineStep, setPhase, hret, hvar2, hch2, ChanState.fresh, hlt]

/-- A goroutine just started, whose `Visit` returns an error, runs to its end in
three steps, leaves the error in the channel the driver waits on and closes it. -/
theorem goroutine_runs_err (cfg : Config) (env : ProdEnv) (content : List UInt8)
    (chans : List ChanState) (ev : List (Option Nat)) (pre : List Goroutine) (a n ch i : Nat)
    (u : String) (unread : List UInt8) (st : ProdState) (sp : List Spawned) (err : GoError)
    (hvar : (ev.get? a).join = some ch) (hch : chans.get? ch = some ChanState.fresh)
    (hret : (env.visit n u).ret = some err) :
    [pre.length + 1, pre.length + 1, pre.length + 1].foldl (raceStep cfg env content)
        ⟨chans, ev, pre ++ [⟨a, GoPhase.visiting n u⟩], DriverPhase.receiving ch, i, unread, st,
          sp, false⟩
      = ⟨chans.set ch ⟨some err, true⟩, ev, pre ++ [⟨a, GoPhase.done⟩], DriverPhase.receiving ch,
          i, unread, st, sp, false⟩ := by
  have hlt : ch < chans.length := by
    rw [List.get?_eq_some] at hch; exact hch.1
  have hvar2 : (ev[a]?.bind fun x => x) = some ch := by
    simpa [Option.join] using hvar
  have hch2 : chans[ch]? = some ChanState.fresh := by
    simpa using hch
  simp [List.foldl, raceStep, goroutineStep, setPhase, hret, hvar2, hch2, ChanState.fresh, hlt]

theorem atTop_eof (cfg : Config) (env : ProdEnv) (content : List UInt8) (s : RaceState)
    (i : Nat) (unread : List UInt8) (st : ProdState) (sp : List Spawned)
    (h : AtTop s i unread st sp) (line rest : List UInt8)
    (hrb : readBytes unread = (line, rest, true)) :
    AttemptEnded cfg content (raceStep cfg env content s 0) i st sp := by
  obtain ⟨hp, hd, hdone, hlen, hi, hu, hv, hs⟩ := h
  have hstep : raceStep cfg env content s 0
      = endAttempt cfg content ⟨s.chans ++ [ChanState.fresh],
          s.errChanVars.set s.i (some s.chans.length), s.goroutines, s.driver, s.i, s.unread,
          s.vars, s.spawned, s.panicked⟩ := by
    simp [raceStep, driverStep, hp, hd, hu, hrb]
  rw [hstep]
  exact endAttempt_ended cfg content _ i st sp hp hdone
    (by simp only [List.length_set]; exact hlen) hi hv hs

theorem atTop_skip (cfg : Config) (env : ProdEnv) (content : List UInt8) (s : RaceState)
    (i : Nat) (unread : List UInt8) (st : ProdState) (sp : List Spawned)
    (h : AtTop s i unread st sp) (line rest : List UInt8)
    (hrb : readBytes unread = (line, rest, false))
    (hparse : env.urlParse (splitFirst line) = none) :
    AtTop (raceStep cfg env content s 0) i rest
      ⟨st.pos + line.length, st.lineNum + 1, st.lastErr, st.visits⟩ sp := by
  obtain ⟨hp, hd, hdone, hlen, hi, hu, hv, hs⟩ := h
  have hstep : raceStep cfg env content s 0
      = ⟨s.chans ++ [ChanState.fresh], s.errChanVars.set s.i (some s.chans.length),
          s.goroutines, s.driver, s.i, rest,
          ⟨s.vars.pos + line.length, s.vars.lineNum + 1, s.vars.lastErr, s.vars.visits⟩,
          s.spawned, s.panicked⟩ := by
    simp [raceStep, driverStep, hp, hd, hu, hrb, hparse]
  rw [hstep]
  refine ⟨hp, hd, hdone, by simp only [List.length_set]; exact hlen, hi, rfl, ?_, hs⟩
  simp only [hv]

/-- The state right after the driver has started the goroutine of a line. -/
theorem atTop_spawn (cfg : Config) (env : ProdEnv) (content : List UInt8)
    (chans : List ChanState) (ev : List (Option Nat)) (gs : List Goroutine) (i : Nat)
    (unread : List UInt8) (st : ProdState) (sp : List Spawned) (line rest : List UInt8)
    (u : String) (hrb : readBytes unread = (line, rest, false))
    (hparse : env.urlParse (splitFirst line) = some u) :
    raceStep cfg env content ⟨chans, ev, gs, DriverPhase.top, i, unread, st, sp, false⟩ 0
      = ⟨chans ++ [ChanState.fresh], ev.set i (some chans.length),
          gs ++ [⟨i, GoPhase.visiting st.visits u⟩], DriverPhase.receiving chans.length, i, rest,
          ⟨st.pos + line.length, st.lineNum + 1, st.lastErr, st.visits + 1⟩,
          sp ++ [⟨i, st.lineNum, st.pos, splitFirst line, u⟩], false⟩ := by
  simp [raceStep, driverStep, hrb, hparse]

theorem atTop_nil (cfg : Config) (env : ProdEnv) (content : List UInt8) (s : RaceState)
    (i : Nat) (unread : List UInt8) (st : ProdState) (sp : List Spawned)
    (h : AtTop s i unread st sp) (line rest : List UInt8) (u : String)
    (hrb : readBytes unread = (line, rest, false))
    (hparse : env.urlParse (splitFirst line) = some u)
    (hret : (env.visit st.visits u).ret = none) :
    AtTop ((0 :: ([s.goroutines.length + 1, s.goroutines.length + 1] ++ [0])).foldl
        (raceStep cfg env content) s) i rest
      ⟨st.pos + line.length, st.lineNum + 1, st.lastErr, st.visits + 1⟩
      (sp ++ [⟨i, st.lineNum, st.pos, splitFirst line, u⟩]) := by
  obtain ⟨chans, ev, gs, drv, i2, unread2, st2, sp2, pan⟩ := s
  obtain ⟨hp, hd, hdone, hlen, hi, hu, hv, hs⟩ := h
  simp only at hp hd hdone hlen hi hu hv hs
  subst hp hd hi hu hv hs
  have hlt : i2 < ev.length := by omega
  rw [List.foldl_cons, atTop_spawn cfg env content chans ev gs i2 unread2 st2 sp2 line rest u hrb
    hparse, List.foldl_append,
    goroutine_runs_nil cfg env content _ _ gs i2 st2.visits chans.length i2 u rest _ _
      (by simp [hlt]) (by simp) hret]
  simp only [List.foldl_cons, List.foldl_nil]
  refine ⟨?_, ?_, ?_, ?_, ?_, ?_, ?_, ?_⟩ <;>
    simp [raceStep, driverStep, AtTop, hlen]
  intro g hg
  rcases hg with hg | hg
  · exact hdone g hg
  · rw [hg]

theorem atTop_err (cfg : Config) (env : ProdEnv) (content : List UInt8) (s : RaceState)
    (i : Nat) (unread : List UInt8) (st : ProdState) (sp : List Spawned)
    (h : AtTop s i unread st sp) (line rest : List UInt8) (u : String) (err : GoError)
    (hrb : readBytes unread = (line, rest, false))
    (hparse : env.urlParse (splitFirst line) = some u)
    (hret : (env.visit st.visits u).ret = some err) (hns : isContextTimeout err = false) :
    AtTop ((0 :: ([s.goroutines.length + 1, s.goroutines.length + 1, s.goroutines.length + 1]
        ++ [0])).foldl (raceStep cfg env content) s) i rest
      ⟨st.pos + line.length, st.lineNum + 1, some err, st.visits + 1⟩
      (sp ++ [⟨i, st.lineNum, st.pos, splitFirst line, u⟩]) := by
  obtain ⟨chans, ev, gs, drv, i2, unread2, st2, sp2, pan⟩ := s
  obtain ⟨hp, hd, hdone, hlen, hi, hu, hv, hs⟩ := h
  simp only at hp hd hdone hlen hi hu hv hs
  subst hp hd hi hu hv hs
  have hlt : i2 < ev.length := by omega
  rw [List.foldl_cons, atTop_spawn cfg env content chans ev gs i2 unread2 st2 sp2 line rest u hrb
    hparse, List.foldl_append,
    goroutine_runs_err cfg env content _ _ gs i2 st2.visits chans.length i2 u rest _ _ err
      (by simp [hlt]) (by simp) hret]
  simp only [List.foldl_cons, List.foldl_nil]
  refine ⟨?_, ?_, ?_, ?_, ?_, ?_, ?_, ?_⟩ <;>
    simp [raceStep, driverStep, AtTop, hlen, hns]
  intro g hg
  rcases hg with hg | hg
  · exact hdone g hg
  · rw [hg]

theorem atTop_stall (cfg : Config) (env : ProdEnv) (content : List UInt8) (s : RaceState)
    (i : Nat) (unread : List UInt8) (st : ProdState) (sp : List Spawned)
    (h : AtTop s i unread st sp) (line rest : List UInt8) (u : String) (err : GoError)
    (hrb : readBytes unread = (line, rest, false))
    (hparse : env.urlParse (splitFirst line) = some u)
    (hret : (env.visit st.visits u).ret = some err) (hstall : isContextTimeout err = true) :
    AttemptEnded cfg content
      ((0 :: ([s.goroutines.length + 1, s.goroutines.length + 1, s.goroutines.length + 1]
        ++ [0])).foldl (raceStep cfg env content) s) i
      ⟨st.pos + line.length, st.lineNum + 1, st.lastErr, st.visits + 1⟩
      (sp ++ [⟨i, st.lineNum, st.pos, splitFirst line, u⟩]) := by
  obtain ⟨chans, ev, gs, drv, i2, unread2, st2, sp2, pan⟩ := s
  obtain ⟨hp, hd, hdone, hlen, hi, hu, hv, hs⟩ := h
  simp only at hp hd hdone hlen hi hu hv hs
  subst hp hd hi hu hv hs
  have hlt : i2 < ev.length := by omega
  rw [List.foldl_cons, atTop_spawn cfg env content chans ev gs i2 unread2 st2 sp2 line rest u hrb
    hparse, List.foldl_append,
    goroutine_runs_err cfg env content _ _ gs i2 st2.visits chans.length i2 u rest _ _ err
      (by simp [hlt]) (by simp) hret]
  simp only [List.foldl_cons, List.foldl_nil]
  have hstep : raceStep cfg env content
      ⟨(chans ++ [ChanState.fresh]).set chans.length ⟨some err, true⟩,
        ev.set i2 (some chans.length), gs ++ [⟨i2, GoPhase.done⟩],
        DriverPhase.receiving chans.length, i2, rest,
        ⟨st2.pos + line.length, st2.lineNum + 1, st2.lastErr, st2.visits + 1⟩,
        sp2 ++ [⟨i2, st2.lineNum, st2.pos, splitFirst line, u⟩], false⟩ 0
      = endAttempt cfg content
          ⟨((chans ++ [ChanState.fresh]).set chans.length ⟨some err, true⟩).set chans.length
              ⟨none, true⟩,
            ev.set i2 (some chans.length), gs ++ [⟨i2, GoPhase.done⟩],
            DriverPhase.receiving chans.length, i2, rest,
            ⟨st2.pos + line.length, st2.lineNum + 1, st2.lastErr, st2.visits + 1⟩,
            sp2 ++ [⟨i2, st2.lineNum, st2.pos, splitFirst line, u⟩], false⟩ := by
    simp [raceStep, driverStep, hstall]
  rw [hstep]
  refine endAttempt_ended cfg content _ i2 _ _ rfl ?_ ?_ rfl rfl rfl
  · intro g hg
    rcases List.mem_append.1 hg with hg | hg
    · exact hdone g hg
    · rw [List.mem_singleton] at hg
      rw [hg]
  · simp only [List.length_set]
    exact hlen

theorem scanLines_scheduled (cfg : Config) (env : ProdEnv) (content : List UInt8) (i fuel : Nat)
    (unread : List UInt8) (st : ProdState) (ds : List Dispatch) (s : RaceState)
    (sp : List Spawned) (h : AtTop s i unread st sp) (st2 : ProdState) (eof : Bool)
    (ds2 : List Dispatch) (hscan : scanLines env i fuel unread st ds = some (st2, eof, ds2)) :
    ∃ (sched : List Nat) (new : List Dispatch), ds2 = ds ++ new
      ∧ AttemptEnded cfg content (sched.foldl (raceStep cfg env content) s) i st2
          (sp ++ new.map Dispatch.toSpawned) := by
  induction fuel generalizing unread st ds s sp with
  | zero => simp [scanLines] at hscan
  | succ fuel ih =>
    rcases hrb : readBytes unread with ⟨line, rest, e⟩
    cases e with
    | true =>
      simp only [scanLines, hrb, Option.some.injEq, Prod.mk.injEq] at hscan
      obtain ⟨h1, _, h3⟩ := hscan
      subst h1 h3
      refine ⟨[0], [], by simp, ?_⟩
      simp only [List.foldl_cons, List.foldl_nil, List.map_nil, List.append_nil]
      exact atTop_eof cfg env content s i unread st sp h line rest hrb
    | false =>
      simp only [scanLines, hrb] at hscan
      cases hparse : env.urlParse (splitFirst line) with
      | none =>
        simp only [hparse] at hscan
        obtain ⟨sched, new, hnew, hend⟩ := ih rest _ ds _ sp
          (atTop_skip cfg env content s i unread st sp h line rest hrb hparse) hscan
        exact ⟨0 :: sched, new, hnew, by rw [List.foldl_cons]; exact hend⟩
      | some u =>
        simp only [hparse, lineOutcome_eq] at hscan
        cases hret : (env.visit st.visits u).ret with
        | none =>
          simp only [hret] at hscan
          obtain ⟨sched, new, hnew, hend⟩ := ih rest _ _ _ _
            (atTop_nil cfg env content s i unread st sp h line rest u hrb hparse hret) hscan
          refine ⟨(0 :: ([s.goroutines.length + 1, s.goroutines.length + 1] ++ [0])) ++ sched,
            ⟨i, st.lineNum, st.pos, splitFirst line, u, none⟩ :: new, ?_, ?_⟩
          · rw [hnew]; simp
          · rw [List.foldl_append]
            simpa [Dispatch.toSpawned] using hend
        | some err =>
          simp only [hret] at hscan
          by_cases hstall : isContextTimeout err = true
          · simp only [hstall, if_true, Option.some.injEq, Prod.mk.injEq] at hscan
            obtain ⟨h1, _, h3⟩ := hscan
            subst h1 h3
            refine ⟨0 :: ([s.goroutines.length + 1, s.goroutines.length + 1,
              s.goroutines.length + 1] ++ [0]),
              [⟨i, st.lineNum, st.pos, splitFirst line, u, some err⟩], rfl, ?_⟩
            exact atTop_stall cfg env content s i unread st sp h line rest u err hrb hparse hret
              hstall
          · simp only [Bool.not_eq_true] at hstall
            simp only [hstall, Bool.false_eq_true, if_false] at hscan
            obtain ⟨sched, new, hnew, hend⟩ := ih rest _ _ _ _
              (atTop_err cfg env content s i unread st sp h line rest u err hrb hparse hret
                hstall) hscan
            refine ⟨(0 :: ([s.goroutines.length + 1, s.goroutines.length + 1,
              s.goroutines.length + 1] ++ [0])) ++ sched,
              ⟨i, st.lineNum, st.pos, splitFirst line, u, some err⟩ :: new, ?_, ?_⟩
            · rw [hnew]; simp
            · rw [List.foldl_append]
              simpa [Dispatch.toSpawned] using hend

theorem productRetryLoop_scheduled (cfg : Config) (env : ProdEnv) (content : List UInt8)
    (remaining i : Nat) (st : ProdState) (log : List AttemptLog) (s : RaceState)
    (sp : List Spawned) (h : AtTop s i (content.drop st.pos) st sp)
    (hmax : i + remaining + 1 = cfg.MaxRetriesProducts.toNat) (st2 : ProdState)
    (log2 : List AttemptLog)
    (hloop : productRetryLoop env content (remaining + 1) i st log = some (st2, log2)) :
    ∃ (sched : List Nat) (newlog : List AttemptLog), log2 = log ++ newlog
      ∧ (sched.foldl (raceStep cfg env content) s).panicked = false
      ∧ (sched.foldl (raceStep cfg env content) s).driver = DriverPhase.returned
      ∧ (sched.foldl (raceStep cfg env content) s).vars = st2
      ∧ (sched.foldl (raceStep cfg env content) s).spawned
          = sp ++ (newlog.flatMap AttemptLog.dispatched).map Dispatch.toSpawned := by
  induction remaining generalizing i st log s sp with
  | zero =>
    simp only [productRetryLoop] at hloop
    cases hscan : scanLines env i ((content.drop st.pos).length + 1) (content.drop st.pos) st []
      with
    | none =>
      rw [hscan] at hloop
      exact absurd hloop (by simp)
    | some res =>
      obtain ⟨st1, eof, ds⟩ := res
      simp only [hscan, Option.some.injEq, Prod.mk.injEq] at hloop
      obtain ⟨h1, h2⟩ := hloop
      subst h1 h2
      obtain ⟨sched, new, hnew, hend⟩ :=
        scanLines_scheduled cfg env content i _ _ st [] s sp h st1 eof ds hscan
      rw [List.nil_append] at hnew
      subst hnew
      have hno : ¬ ((i : Int) + 1 < cfg.MaxRetriesProducts) := by omega
      unfold AttemptEnded at hend
      rw [if_neg hno] at hend
      obtain ⟨e1, e2, e3, e4⟩ := hend
      exact ⟨sched, [⟨st.pos, st1.pos, eof, ds⟩], rfl, e1, e2, e3, by simpa using e4⟩
  | succ r ih =>
    simp only [productRetryLoop] at hloop
    cases hscan : scanLines env i ((content.drop st.pos).length + 1) (content.drop st.pos) st []
      with
    | none =>
      rw [hscan] at hloop
      exact absurd hloop (by simp)
    | some res =>
      obtain ⟨st1, eof, ds⟩ := res
      simp only [hscan] at hloop
      obtain ⟨sched, new, hnew, hend⟩ :=
        scanLines_scheduled cfg env content i _ _ st [] s sp h st1 eof ds hscan
      rw [List.nil_append] at hnew
      subst hnew
      have hyes : (i : Int) + 1 < cfg.MaxRetriesProducts := by omega
      unfold AttemptEnded at hend
      rw [if_pos hyes] at hend
      obtain ⟨sched2, newlog, hlog, e1, e2, e3, e4⟩ :=
        ih (i + 1) st1 _ _ _ hend (by omega) hloop
      refine ⟨sched ++ sched2, ⟨st.pos, st1.pos, eof, ds⟩ :: newlog, ?_, ?_, ?_, ?_, ?_⟩
      · rw [hlog]; simp
      · rw [List.foldl_append]; exact e1
      · rw [List.foldl_append]; exact e2
      · rw [List.foldl_append]; exact e3
      · rw [List.foldl_append, e4]; simp

/-- Every run of the sequential model is the run of the product pass under some
schedule: the pass returns without a panic after starting the goroutines the
sequential model records, in the same order, and with the same `lastErr`. -/
theorem runProductsScrape_scheduled (cfg : Config) (env : ProdEnv) (content : List UInt8)
    (r : ProductsResult) (hr : runProductsScrape cfg env none none content = some r) :
    ∃ schedule : List Nat,
      (runProductsScrapeScheduled cfg env content schedule).panicked = false
        ∧ (runProductsScrapeScheduled cfg env content schedule).driver = DriverPhase.returned
        ∧ (runProductsScrapeScheduled cfg env content schedule).spawned
            = r.dispatched.map Dispatch.toSpawned
        ∧ (runProductsScrapeScheduled cfg env content schedule).vars.lastErr = r.lastErr := by
  simp only [runProductsScrape] at hr
  cases hm : cfg.MaxRetriesProducts.toNat with
  | zero =>
    simp only [hm, productRetryLoop, Option.some.injEq] at hr
    subst hr
    have hno : ¬ ((0 : Int) < cfg.MaxRetriesProducts) := by omega
    refine ⟨[], ?_, ?_, ?_, ?_⟩ <;>
      simp [runProductsScrapeScheduled, raceInit, hno, ProductsResult.dispatched]
  | succ m =>
    rw [hm] at hr
    cases hloop : productRetryLoop env content (m + 1) 0 ⟨0, 1, none, 0⟩ [] with
    | none => simp [hloop] at hr
    | some res =>
      obtain ⟨st2, log2⟩ := res
      simp only [hloop, Option.some.injEq] at hr
      subst hr
      have hyes : (0 : Int) < cfg.MaxRetriesProducts := by omega
      have hinit : AtTop (raceInit cfg content) 0 (content.drop 0) ⟨0, 1, none, 0⟩ [] := by
        simp [raceInit, hyes, AtTop]
      obtain ⟨sched, newlog, hlog, e1, e2, e3, e4⟩ :=
        productRetryLoop_scheduled cfg env content m 0 ⟨0, 1, none, 0⟩ [] (raceInit cfg content) []
          hinit (by omega) st2 log2 hloop
      rw [List.nil_append] at hlog
      subst hlog
      refine ⟨sched, e1, e2, ?_, ?_⟩
      · simpa [runProductsScrapeScheduled, ProductsResult.dispatched] using e4
      · simp only [runProductsScrapeScheduled]
        rw [e3]

end GoScrapeEbay
